import Mathlib

/-!
Verification of the intake pipeline of cired.digital.

The definitions below are a shallow embedding of the Python sources under
src/intake/ (prepare_catalog.py, pc2.py, push.py, align_metadata.py,
hal_query.py, utils.py).  Records are modelled as structures whose fields
mirror the HAL JSON fields actually read by the code; machine strings are
Lean strings restricted to the ASCII fragment of the Python regex classes;
side-effecting remote calls are made explicit as returned call traces, and
fallible external operations (json parsing, HTTP fetches, create and delete
calls) are parameters returning Option or an explicit result type.
-/

/-- ASCII model of the Python regex class \s (whitespace). -/
def isSpaceChar (c : Char) : Bool :=
  c = ' ' || c = '\t' || c = '\n' || c = '\r' || c = Char.ofNat 11 || c = Char.ofNat 12

/-- ASCII model of the Python regex class \w (word character). -/
def isWordChar (c : Char) : Bool :=
  c.isAlphanum || c = '_'

/-- Split a character list into maximal runs of non-whitespace characters,
mirroring the effect of the Python idiom re.sub of runs of whitespace followed
by strip.  The first accumulator argument holds the current word reversed. -/
def splitWordsAux : List Char → List Char → List (List Char)
  | [], cur => if cur = [] then [] else [cur.reverse]
  | c :: rest, cur =>
    if isSpaceChar c then
      if cur = [] then splitWordsAux rest []
      else cur.reverse :: splitWordsAux rest []
    else splitWordsAux rest (c :: cur)

/-- Join words with single spaces. -/
def joinWords : List (List Char) → String
  | [] => ""
  | [w] => String.mk w
  | w :: rest => String.mk w ++ " " ++ joinWords rest

/-- Embedding of utils.normalize_title: lower-case, drop characters that are
neither word nor whitespace characters, collapse whitespace runs to single
spaces and strip the ends. -/
def normalize_title (title : String) : String :=
  let cleaned := (title.toList.map Char.toLower).filter
    (fun c => isWordChar c || isSpaceChar c)
  joinWords (splitWordsAux cleaned [])

/-- A HAL publication record, with exactly the fields the intake code reads.
Multi-valued HAL fields are lists (an absent field is the empty list, which the
code treats identically); optional scalar fields are Option String.  The code
under test never mutates doi; html unescaping of the citation and the date
truncation are presented as already applied. -/
structure Publication where
  docid : Nat
  halId : Option String
  doi : Option String
  title : List String
  label : String
  abstract : List String
  producedDate : Option String
  docType : Option String
  authors : List String
  labStructAcronym : List String
  fileMain : Option String
deriving DecidableEq

/-- First element of the possibly multi-valued title, empty string if none:
models the idiom title_s[0] if title_s else the empty default. -/
def firstTitle (p : Publication) : String :=
  p.title.headD ""

/-- Normalized title of a publication, the grouping key of the deduplicator. -/
def normTitle (p : Publication) : String :=
  normalize_title (firstTitle p)

/-- Embedding of prepare_catalog.is_working_paper. -/
def is_working_paper (docType : String) : Bool :=
  if docType = "" then false
  else
    let u := String.mk (docType.toList.map Char.toUpper)
    u = "UNDEFINED" || u = "OTHER" || u = "REPORT"

/-- is_working_paper applied to the docType_s field with the empty default,
as the call sites do. -/
def isWP (p : Publication) : Bool :=
  is_working_paper (p.docType.getD "")

/-- Embedding of prepare_catalog.has_open_access: the fileMain_s field is
present and truthy. -/
def has_open_access (p : Publication) : Bool :=
  match p.fileMain with
  | some s => !(s = "")
  | none => false

/-- Append a publication to the group of the given key, creating the group at
the end if the key is new: models insertion into the Python dict of lists. -/
def insertGroup : List (String × List Publication) → String → Publication →
    List (String × List Publication)
  | [], key, p => [(key, [p])]
  | (k, ps) :: rest, key, p =>
    if k = key then (k, ps ++ [p]) :: rest
    else (k, ps) :: insertGroup rest key p

/-- One grouping step: insert the publication under its normalized title,
unless that title is empty and empty keys are not kept. -/
def titleGroupStep (includeEmpty : Bool)
    (gs : List (String × List Publication)) (p : Publication) :
    List (String × List Publication) :=
  let k := normTitle p
  if k ≠ "" ∨ includeEmpty then insertGroup gs k p else gs

/-- Common grouping loop of both catalog variants: group by normalized title,
optionally dropping publications whose normalized title is empty. -/
def buildTitleGroups (includeEmpty : Bool) (pubs : List Publication) :
    List (String × List Publication) :=
  pubs.foldl (titleGroupStep includeEmpty) []

/-- Embedding of prepare_catalog.group_by_normalized_title: publications with
an empty normalized title are placed in no group. -/
def group_by_normalized_title (pubs : List Publication) :
    List (String × List Publication) :=
  buildTitleGroups false pubs

/-- Grouping of pc2.process_publications via the dataframe groupby: the empty
normalized title is an ordinary key, so no record is dropped. -/
def pc2_group (pubs : List Publication) : List (String × List Publication) :=
  buildTitleGroups true pubs

/-- Per-group body of prepare_catalog.filter_working_papers: returns the kept
members and the number of excluded working papers. -/
def filterGroup (group : List Publication) : List Publication × Nat :=
  if group.length = 1 then (group, 0)
  else
    let published := group.filter (fun p => !(isWP p))
    let wps := group.filter (fun p => isWP p)
    let publishedFT := published.filter has_open_access
    if publishedFT = [] then (group, 0)
    else (published, wps.length)

/-- The loop of filter_working_papers over the title groups, concatenating the
kept members and summing the exclusion counts. -/
def applyGroupFilters : List (String × List Publication) → List Publication × Nat
  | [] => ([], 0)
  | kg :: rest =>
    let r := filterGroup kg.2
    let rest' := applyGroupFilters rest
    (r.1 ++ rest'.1, r.2 + rest'.2)

/-- Embedding of prepare_catalog.filter_working_papers. -/
def filter_working_papers (pubs : List Publication) : List Publication × Nat :=
  applyGroupFilters (group_by_normalized_title pubs)

/-- Prefix test on character lists. -/
def charsPrefix : List Char → List Char → Bool
  | [], _ => true
  | _ :: _, [] => false
  | c :: cs, d :: ds => c = d && charsPrefix cs ds

/-- Infix test on character lists. -/
def charsInfix (pat : List Char) : List Char → Bool
  | [] => charsPrefix pat []
  | c :: rest => charsPrefix pat (c :: rest) || charsInfix pat rest

/-- Substring containment, modelling the Python in operator on strings. -/
def containsSub (s pat : String) : Bool :=
  charsInfix pat.toList s.toList

/-- The CIRED-lab versus CIRED-conference test of process_publications: a
record is related unless the lab acronym is absent while the citation mentions
CIRED. -/
def cired_related (p : Publication) : Bool :=
  let labPresent := p.labStructAcronym.contains "CIRED"
  let inCitation := containsSub p.label "CIRED"
  !(!labPresent && inCitation)

/-- The counters emitted by prepare_catalog.process_publications.  There is no
DOI-duplicates counter in the source. -/
structure FilteringStats where
  total_retrieved : Nat
  cired_conference_excluded : Nat
  blacklisted_excluded : Nat
  no_open_access_excluded : Nat
  working_papers_excluded : Nat
  final_count : Nat
deriving DecidableEq

/-- Result of prepare_catalog.process_publications (the timestamp and source
file provenance fields are omitted). -/
structure CatalogResult where
  stats : FilteringStats
  publications : List Publication
  excluded_communications : List Publication
deriving DecidableEq

/-- Embedding of prepare_catalog.process_publications.  The blacklist, read
from a file in the source, is a parameter. -/
def process_publications (blacklist : List String) (pubs : List Publication) :
    CatalogResult :=
  let related := pubs.filter cired_related
  let unrelated := pubs.filter (fun p => !(cired_related p))
  let nonBlacklisted := related.filter
    (fun p => !(blacklist.contains (p.halId.getD "")))
  let blacklistedCount :=
    (related.filter (fun p => blacklist.contains (p.halId.getD ""))).length
  let withOA := nonBlacklisted.filter has_open_access
  let noOACount :=
    (nonBlacklisted.filter (fun p => !(has_open_access p))).length
  let fwp := filter_working_papers withOA
  { stats :=
      { total_retrieved := pubs.length
        cired_conference_excluded := unrelated.length
        blacklisted_excluded := blacklistedCount
        no_open_access_excluded := noOACount
        working_papers_excluded := fwp.2
        final_count := fwp.1.length }
    publications := fwp.1
    excluded_communications := unrelated }

/-- Per-group body of the pandas filter in pc2.process_publications: keep the
non-working-papers if any exist, otherwise the whole group. -/
def pc2_filter_group (group : List Publication) : List Publication :=
  let nonWp := group.filter (fun p => !(isWP p))
  if nonWp = [] then group else nonWp

/-- Concatenation of the per-group pandas filter results. -/
def pc2_concat : List (String × List Publication) → List Publication
  | [] => []
  | kg :: rest => pc2_filter_group kg.2 ++ pc2_concat rest

/-- The counters emitted by pc2.process_publications. -/
structure Pc2Stats where
  total_retrieved : Nat
  working_papers_excluded : Nat
  final_count : Nat
deriving DecidableEq

/-- Embedding of the statistics of pc2.process_publications: the excluded
count is defined as the difference between the initial and final lengths. -/
def pc2_process_publications (pubs : List Publication) : Pc2Stats :=
  let filtered := pc2_concat (pc2_group pubs)
  { total_retrieved := pubs.length
    working_papers_excluded := pubs.length - filtered.length
    final_count := filtered.length }

/-- Erase the DOI field of a publication. -/
def eraseDoi (p : Publication) : Publication :=
  { p with doi := none }

/-- Lookup in an association list, modelling Python dict.get (keys unique). -/
def assocGet {β : Type} : List (String × β) → String → Option β
  | [], _ => none
  | kv :: rest, k => if kv.1 = k then some kv.2 else assocGet rest k

/-- Python str truthiness filter: keep a value only if it is a non-empty
string, as the walrus conditions of format_metadata_for_upload do. -/
def truthy : Option String → Option String
  | some s => if s = "" then none else some s
  | none => none

/-- One optional entry of the formatted metadata map. -/
def fmEntry (field : String) (v : Option String) : List (String × String) :=
  match truthy v with
  | some s => [(field, s)]
  | none => []

/-- The apostrophe character, written by code point. -/
def pyQuote : Char := Char.ofNat 39

/-- Python repr of a string, quotes included (escaping not modelled). -/
def pyRepr (s : String) : String :=
  String.mk (pyQuote :: s.toList ++ [pyQuote])

/-- Join strings with a separator. -/
def joinSep (sep : String) : List String → String
  | [] => ""
  | [w] => w
  | w :: rest => w ++ sep ++ joinSep sep rest

/-- Python str of a list of strings, as produced by str(authors). -/
def pyStrList (l : List String) : String :=
  "[" ++ joinSep ", " (l.map pyRepr) ++ "]"

/-- Embedding of push.format_metadata_for_upload: the fixed HAL-to-R2R field
mapping, keeping only the first element of multi-valued fields, the full
stringified author list, and a derived source URL preferring the DOI. -/
def format_metadata_for_upload (p : Publication) : List (String × String) :=
  let base :=
    fmEntry "title" p.title.head? ++
    fmEntry "citation" (some p.label) ++
    fmEntry "description" p.abstract.head? ++
    fmEntry "publication_date" p.producedDate ++
    fmEntry "doi" p.doi ++
    fmEntry "hal_id" p.halId ++
    fmEntry "document_type" p.docType
  let withAuthors :=
    base ++ (if p.authors = [] then [] else [("authors", pyStrList p.authors)])
  withAuthors ++
    (match truthy p.doi with
     | some d => [("source_url", "https://doi.org/" ++ d)]
     | none =>
       match truthy p.halId with
       | some h => [("source_url", "https://hal.science/" ++ h)]
       | none => [])

/-- A candidate PDF file, identified by its filename stem. -/
structure PdfFile where
  stem : String
deriving DecidableEq

/-- Full filename of a candidate PDF. -/
def pdfPath (f : PdfFile) : String :=
  f.stem ++ ".pdf"

/-- A mutating call issued to the remote R2R client. -/
inductive RemoteCall where
  | create : String → RemoteCall
  | delete : String → RemoteCall
deriving DecidableEq

/-- Result of push.upload_pdfs, extended with the explicit trace of the
mutating remote calls that were issued. -/
structure UploadResult where
  success : Nat
  skipped : Nat
  failed : List (PdfFile × String)
  calls : List RemoteCall
deriving DecidableEq

/-- Document title used by upload_pdfs to probe the server inventory: the
formatted title of the metadata found under the file stem, else the stem. -/
def docTitleFor (metadataByFile : List (String × Publication)) (stem : String) :
    String :=
  match assocGet metadataByFile stem with
  | some pub => (assocGet (format_metadata_for_upload pub) "title").getD stem
  | none => stem

/-- The loop of push.upload_pdfs.  existing maps a document title to its
ingestion status on the server; createResult models client.documents.create,
returning none on success and the exception text on failure; the collection
argument and the metadata payload do not influence control flow and are not
carried by the call trace. -/
def uploadLoop (existing : List (String × String))
    (metadataByFile : List (String × Publication))
    (createResult : String → Option String) (maxUpload : Int) :
    List PdfFile → Nat → Nat → List (PdfFile × String) → List RemoteCall →
    UploadResult
  | [], s, k, fails, calls => ⟨s, k, fails, calls⟩
  | file :: rest, s, k, fails, calls =>
    if 0 < maxUpload ∧ maxUpload ≤ (s : Int) then ⟨s, k, fails, calls⟩
    else
      let title := docTitleFor metadataByFile file.stem
      let status := assocGet existing title
      if status ≠ none ∧ status ≠ some "failed" then
        uploadLoop existing metadataByFile createResult maxUpload
          rest s (k + 1) fails calls
      else
        match createResult (pdfPath file) with
        | none =>
          uploadLoop existing metadataByFile createResult maxUpload
            rest (s + 1) k fails (calls ++ [RemoteCall.create (pdfPath file)])
        | some err =>
          uploadLoop existing metadataByFile createResult maxUpload
            rest s k (fails ++ [(file, err)])
            (calls ++ [RemoteCall.create (pdfPath file)])

/-- Embedding of push.upload_pdfs: a zero budget returns immediately in dry
run mode, otherwise the loop runs with the budget as a cap on successes. -/
def upload_pdfs (files : List PdfFile) (existing : List (String × String))
    (metadataByFile : List (String × Publication))
    (createResult : String → Option String) (maxUpload : Int) : UploadResult :=
  if maxUpload = 0 then ⟨0, 0, [], []⟩
  else uploadLoop existing metadataByFile createResult maxUpload files 0 0 [] []

/-- Number of successful create calls recorded in a call trace. -/
def successfulCreates (createResult : String → Option String)
    (calls : List RemoteCall) : Nat :=
  calls.countP (fun c =>
    match c with
    | RemoteCall.create p => createResult p = none
    | RemoteCall.delete _ => false)

/-- A raw document row as exported by the R2R server, before the metadata
column is parsed: the JSON-encoded metadata is an opaque string. -/
structure RawDoc where
  id : String
  title : String
  ingestionStatus : String
  metadata : String
deriving DecidableEq

/-- Flattening of a parsed metadata map into prefixed columns, joined to the
fixed exported columns of the row. -/
def flattenDoc (r : RawDoc) (m : List (String × String)) :
    List (String × String) :=
  [("id", r.id), ("title", r.title), ("ingestion_status", r.ingestionStatus)]
    ++ m.map (fun kv => ("meta_" ++ kv.1, kv.2))

/-- Embedding of utils.get_existing_documents: parse models json.loads and
returns none on a malformed blob.  The parse is applied to every row inside
one try block, so a single failure makes the whole function return none. -/
def get_existing_documents
    (parse : String → Option (List (String × String))) :
    List RawDoc → Option (List (List (String × String)))
  | [] => some []
  | r :: rest =>
    match parse r.metadata with
    | none => none
    | some m =>
      match get_existing_documents parse rest with
      | none => none
      | some ds => some (flattenDoc r m :: ds)

/-- A file in the local documents directory. -/
structure LocalFile where
  name : String
  size : Nat
  content : String
deriving DecidableEq

/-- Replace hyphens by underscores, modelling hal_id.replace. -/
def underscoreId (halId : String) : String :=
  String.mk (halId.toList.map (fun c => if c = '-' then '_' else c))

/-- First file of the directory with the given name, modelling Path.exists
followed by use of that path. -/
def findFile : List LocalFile → String → Option LocalFile
  | [], _ => none
  | f :: rest, nm => if f.name = nm then some f else findFile rest nm

/-- Prefix test on strings via their character lists. -/
def strStartsWith (pre s : String) : Bool :=
  charsPrefix pre.toList s.toList

/-- The configured maximum file size, from intake.config. -/
def MAX_FILE_SIZE : Nat := 30000000

/-- Classification of one catalog entry by establish_available_documents. -/
inductive LocalStatus where
  | available : LocalFile → LocalStatus
  | oversized : LocalFile → LocalStatus
  | nonPdf : LocalStatus
  | missing : LocalStatus
  | skipped : LocalStatus
deriving DecidableEq

/-- Per-entry body of push.establish_available_documents: skip entries with
no PDF URL, probe for the hyphen spelling then the underscore spelling of
halId with the .pdf extension, enforce the size cap on the found candidate,
and otherwise look for same-stem files with another extension. -/
def classify_catalog_entry (dir : List LocalFile) (halId : String)
    (hasPdfUrl : Bool) : LocalStatus :=
  if !hasPdfUrl then LocalStatus.skipped
  else
    let candidate :=
      match findFile dir (halId ++ ".pdf") with
      | some f => some f
      | none => findFile dir (underscoreId halId ++ ".pdf")
    match candidate with
    | some f =>
      if f.size > MAX_FILE_SIZE then LocalStatus.oversized f
      else LocalStatus.available f
    | none =>
      let others := dir.filter (fun f =>
        strStartsWith (halId ++ ".") f.name ||
        strStartsWith (underscoreId halId ++ ".") f.name)
      if others = [] then LocalStatus.missing else LocalStatus.nonPdf

/-- Change only the content of a local file. -/
def retag (g : LocalFile → String) (f : LocalFile) : LocalFile :=
  { f with content := g f }

/-- Lift a content change to a classification result. -/
def retagStatus (g : LocalFile → String) : LocalStatus → LocalStatus
  | LocalStatus.available f => LocalStatus.available (retag g f)
  | LocalStatus.oversized f => LocalStatus.oversized (retag g f)
  | s => s

/-- Lookup of a column in a flattened document row.  A cell is Option String:
none models both a missing column and a NaN cell, which the comparison code
treats identically through pd.isna. -/
def rowGet (row : List (String × Option String)) (col : String) : Option String :=
  match assocGet row col with
  | some v => v
  | none => none

/-- Python str applied to a cell, as in the authors comparison: a NaN cell
prints as nan. -/
def pyStrOfOpt : Option String → String
  | some s => s
  | none => "nan"

/-- Python str.strip on whitespace. -/
def pyStrip (s : String) : String :=
  String.mk (((s.toList.dropWhile isSpaceChar).reverse.dropWhile
    isSpaceChar).reverse)

/-- The normalization applied to a stored remote value before the generic
comparison: a missing, NaN, empty, or whitespace-only value becomes none. -/
def normRemote : Option String → Option String
  | none => none
  | some s => if pyStrip s = "" then none else some s

/-- The special authors pre-comparison: Python str of the stored cell against
the formatted catalog value, which is false when the catalog value is absent. -/
def authorsSame (current catalogValue : Option String) : Bool :=
  match catalogValue with
  | some s => pyStrOfOpt current = s
  | none => false

/-- One field comparison of align_metadata.needs_metadata_update: the authors
field is first checked by stringified equality, then every field falls through
to the comparison of the normalized stored value with the catalog value. -/
def fieldNeedsUpdate (current catalogValue : Option String)
    (isAuthors : Bool) : Bool :=
  if isAuthors ∧ authorsSame current catalogValue then false
  else normRemote current ≠ catalogValue

/-- The fixed catalog-field to metadata-column mapping of
needs_metadata_update. -/
def metaFieldMapping : List (String × String) :=
  [("title", "meta_title"), ("citation", "meta_citation"),
   ("description", "meta_description"),
   ("publication_date", "meta_publication_date"), ("doi", "meta_doi"),
   ("hal_id", "meta_hal_id"), ("document_type", "meta_document_type"),
   ("authors", "meta_authors"), ("source_url", "meta_source_url")]

/-- One iteration of the field loop of needs_metadata_update, appending the
catalog value under the catalog field name when an update is needed. -/
def nmuStep (row : List (String × Option String))
    (catalog : List (String × String)) (acc : List (String × Option String))
    (fm : String × String) : List (String × Option String) :=
  let current := rowGet row fm.2
  let catalogValue := assocGet catalog fm.1
  if fieldNeedsUpdate current catalogValue (fm.1 = "authors")
  then acc ++ [(fm.1, catalogValue)] else acc

/-- Embedding of align_metadata.needs_metadata_update: the row is a flattened
server document, the catalog entry is formatted exactly as for upload, and the
result maps each disagreeing catalog field to the catalog value. -/
def needs_metadata_update (row : List (String × Option String))
    (pub : Publication) : List (String × Option String) :=
  metaFieldMapping.foldl (nmuStep row (format_metadata_for_upload pub)) []

/-- A server document matched to a catalog entry, as assembled by
match_documents_to_catalog. -/
structure DocMatch where
  docId : String
  catalogEntry : Publication
  documentRow : List (String × Option String)
deriving DecidableEq

/-- Result of align_metadata.process_matches, extended with the explicit
trace of the mutating remote calls that were issued. -/
structure AlignResult where
  deleteCount : Nat
  skipCount : Nat
  calls : List RemoteCall
deriving DecidableEq

/-- Embedding of align_metadata.delete_document: in dry-run mode no call is
issued and the function reports success; in execute mode the delete call is
issued and deleteOk tells whether it raised. -/
def delete_document (docId : String) (executeMode : Bool)
    (deleteOk : String → Bool) : Bool × List RemoteCall :=
  if !executeMode then (true, [])
  else (deleteOk docId, [RemoteCall.delete docId])

/-- Embedding of align_metadata.process_matches: aligned documents are
skipped, the others are deleted, and a failed delete is dropped from the
tally without stopping the loop. -/
def process_matches (executeMode : Bool) (deleteOk : String → Bool) :
    List DocMatch → AlignResult
  | [] => ⟨0, 0, []⟩
  | m :: rest =>
    let updates := needs_metadata_update m.documentRow m.catalogEntry
    if updates = [] then
      let r := process_matches executeMode deleteOk rest
      ⟨r.deleteCount, r.skipCount + 1, r.calls⟩
    else
      let d := delete_document m.docId executeMode deleteOk
      let r := process_matches executeMode deleteOk rest
      ⟨(if d.1 then 1 else 0) + r.deleteCount, r.skipCount, d.2 ++ r.calls⟩

/-- Outcome of fetching one page from the HAL API: a network or HTTP error,
or the page of records. -/
inductive FetchResult (α : Type) where
  | err : FetchResult α
  | ok : List α → FetchResult α
deriving DecidableEq

/-- The pagination loop of hal_query.get_paginated_publications, recursing on
the number of remaining batches.  fetch takes the batch index; the function
returns the accumulated records and the list of requested start offsets. -/
def paginateAux {α : Type} (fetch : Nat → FetchResult α) (batchSize : Nat) :
    Nat → Nat → List α → List Nat → List α × List Nat
  | 0, _, acc, offs => (acc, offs)
  | fuel + 1, current, acc, offs =>
    let start := current * batchSize
    match fetch current with
    | FetchResult.err => (acc, offs ++ [start])
    | FetchResult.ok docs =>
      if docs.isEmpty then (acc, offs ++ [start])
      else if docs.length < batchSize then (acc ++ docs, offs ++ [start])
      else paginateAux fetch batchSize fuel (current + 1) (acc ++ docs)
        (offs ++ [start])

/-- Embedding of hal_query.get_paginated_publications: at most maxBatches
pages are requested, offsets advance by the batch size, and the loop stops on
an error, an empty page, or a short page. -/
def get_paginated_publications {α : Type} (fetch : Nat → FetchResult α)
    (batchSize maxBatches : Nat) : List α × List Nat :=
  paginateAux fetch batchSize maxBatches 0 [] []

/-- A publication record with every field empty, used to build the concrete
examples below. -/
def basePub : Publication :=
  { docid := 0, halId := none, doi := none, title := [], label := "",
    abstract := [], producedDate := none, docType := none, authors := [],
    labStructAcronym := [], fileMain := none }

/-- A COMM record with a DOI shared with pubArtC1 but a different title. -/
def pubCommC1 : Publication :=
  { basePub with
    docid := 1
    halId := some "hal-1"
    doi := some "10.1/x"
    title := ["Alpha"]
    label := "Paper one"
    docType := some "COMM"
    labStructAcronym := ["CIRED"]
    fileMain := some "u1" }

/-- An ART record with a DOI shared with pubCommC1 but a different title. -/
def pubArtC1 : Publication :=
  { basePub with
    docid := 2
    halId := some "hal-2"
    doi := some "10.1/x"
    title := ["Beta"]
    label := "Paper two"
    docType := some "ART"
    labStructAcronym := ["CIRED"]
    fileMain := some "u2" }

/-- An ART record without open access, sharing its title with pubUndefC2. -/
def pubArtC2 : Publication :=
  { basePub with
    docid := 3
    halId := some "hal-3"
    title := ["Same Study"]
    label := "Paper three"
    docType := some "ART"
    labStructAcronym := ["CIRED"] }

/-- An UNDEFINED record sharing its title with pubArtC2. -/
def pubUndefC2 : Publication :=
  { basePub with
    docid := 4
    halId := some "hal-4"
    title := ["Same Study"]
    label := "Paper four"
    docType := some "UNDEFINED"
    labStructAcronym := ["CIRED"] }

/-- A related record without open access, for the statistics counterexample. -/
def pubNoOAC3 : Publication :=
  { basePub with
    docid := 5
    halId := some "hal-5"
    title := ["Gamma"]
    label := "Paper five"
    docType := some "ART"
    labStructAcronym := ["CIRED"] }

/-- A record whose title is punctuation-only, so its normalized title is
empty. -/
def pubDotsC10 : Publication :=
  { basePub with
    docid := 6
    halId := some "hal-6"
    title := ["..."]
    label := "Paper six"
    docType := some "ART"
    labStructAcronym := ["CIRED"]
    fileMain := some "u6" }

/-- An ART record with open access, sharing its title with pubUndefOAC2. -/
def pubArtOAC2 : Publication :=
  { basePub with
    docid := 8
    halId := some "hal-8"
    title := ["Joint Work"]
    label := "Paper eight"
    docType := some "ART"
    labStructAcronym := ["CIRED"]
    fileMain := some "u8" }

/-- An UNDEFINED record sharing its title with pubArtOAC2. -/
def pubUndefOAC2 : Publication :=
  { basePub with
    docid := 9
    halId := some "hal-9"
    title := ["Joint Work"]
    label := "Paper nine"
    docType := some "UNDEFINED"
    labStructAcronym := ["CIRED"]
    fileMain := some "u9" }

/-- A catalog record used by the metadata comparison witness. -/
def pubC8 : Publication :=
  { basePub with
    docid := 7
    halId := some "hal-7"
    title := ["Delta"]
    label := "Paper seven"
    docType := some "ART"
    labStructAcronym := ["CIRED"]
    authors := ["A. One", "B. Two"]
    fileMain := some "u7" }

/-- A server document row whose stored title disagrees with pubC8. -/
def rowC8 : List (String × Option String) :=
  [("meta_title", some "Epsilon"), ("meta_citation", some "Paper seven"),
   ("meta_hal_id", some "hal-7"), ("meta_document_type", some "ART"),
   ("meta_authors", some (pyStrList ["A. One", "B. Two"])),
   ("meta_source_url", some "https://hal.science/hal-7")]

/-- Total number of publications held in a group list. -/
def sumSizes (gs : List (String × List Publication)) : Nat :=
  (gs.map (fun kg => kg.2.length)).sum

/-- Erase the DOI of every member of every group. -/
def gsEraseDoi (gs : List (String × List Publication)) :
    List (String × List Publication) :=
  gs.map (fun kg => (kg.1, kg.2.map eraseDoi))

/-- Whether upload_pdfs skips a candidate file: its document title is on the
server with an ingestion status other than failed. -/
def isSkippedFile (existing : List (String × String))
    (metadataByFile : List (String × Publication)) (f : PdfFile) : Bool :=
  match assocGet existing (docTitleFor metadataByFile f.stem) with
  | none => false
  | some st => !(st = "failed")

/-- Whether the create call for a candidate file succeeds. -/
def createSucceeds (createResult : String → Option String) (f : PdfFile) :
    Bool :=
  (createResult (pdfPath f)).isNone

theorem length_filter_split {α : Type} (p : α → Bool) (l : List α) :
    (l.filter p).length + (l.filter (fun a => !(p a))).length = l.length := by
  induction l with
  | nil => rfl
  | cons a t ih =>
    cases h : p a <;> simp [List.filter_cons, h] <;> omega

theorem length_filter_lt {α : Type} {p : α → Bool} {l : List α} {x : α}
    (hx : x ∈ l) (hpx : p x = false) : (l.filter p).length < l.length := by
  induction l with
  | nil => cases hx
  | cons a t ih =>
    rcases List.mem_cons.mp hx with rfl | hxt
    · have := List.length_filter_le p t
      simp [List.filter_cons, hpx]
      omega
    · have hlt := ih hxt
      cases h : p a <;> simp [List.filter_cons, h] <;> omega

theorem filter_map_general {α β : Type} (f : α → β) (p : α → Bool)
    (q : β → Bool) (h : ∀ a, q (f a) = p a) (l : List α) :
    (l.map f).filter q = (l.filter p).map f := by
  induction l with
  | nil => rfl
  | cons a t ih =>
    cases hp : p a <;>
      simp [List.filter_cons, h a, hp, ih]

theorem insertGroup_sumSizes (gs : List (String × List Publication))
    (k : String) (p : Publication) :
    sumSizes (insertGroup gs k p) = sumSizes gs + 1 := by
  induction gs with
  | nil => simp [insertGroup, sumSizes]
  | cons kg rest ih =>
    obtain ⟨k0, ps⟩ := kg
    by_cases h : k0 = k <;> simp [insertGroup, h, sumSizes] at * <;> omega

theorem insertGroup_mem (gs : List (String × List Publication)) (k : String)
    (p : Publication) (kg : String × List Publication)
    (hkg : kg ∈ insertGroup gs k p) :
    kg ∈ gs ∨ (kg.1 = k ∧ ∀ q ∈ kg.2, q ∈ [p] ∨ ∃ g0, (k, g0) ∈ gs ∧ q ∈ g0) := by
  induction gs with
  | nil =>
    simp [insertGroup] at hkg
    subst hkg
    simp
  | cons kg0 rest ih =>
    obtain ⟨k0, ps⟩ := kg0
    by_cases h : k0 = k
    · subst h
      simp [insertGroup] at hkg
      rcases hkg with rfl | hkg
      · right
        refine ⟨rfl, ?_⟩
        intro q hq
        rcases List.mem_append.mp hq with hq | hq
        · exact Or.inr ⟨ps, by simp, hq⟩
        · simp at hq
          subst hq
          simp
      · exact Or.inl (List.mem_cons_of_mem _ hkg)
    · simp [insertGroup, h] at hkg
      rcases hkg with rfl | hkg
      · exact Or.inl (List.mem_cons_self _ _)
      · rcases ih hkg with h1 | ⟨h1, h2⟩
        · exact Or.inl (List.mem_cons_of_mem _ h1)
        · right
          refine ⟨h1, ?_⟩
          intro q hq
          rcases h2 q hq with hq1 | ⟨g0, hg0, hqg0⟩
          · exact Or.inl hq1
          · exact Or.inr ⟨g0, List.mem_cons_of_mem _ hg0, hqg0⟩

theorem insertGroup_keys (gs : List (String × List Publication)) (k : String)
    (p : Publication) :
    (insertGroup gs k p).map Prod.fst =
      if k ∈ gs.map Prod.fst then gs.map Prod.fst
      else gs.map Prod.fst ++ [k] := by
  induction gs with
  | nil => simp [insertGroup]
  | cons kg rest ih =>
    obtain ⟨k0, ps⟩ := kg
    by_cases h : k0 = k
    · subst h
      simp [insertGroup]
    · simp [insertGroup, h, ih]
      by_cases hk : k ∈ rest.map Prod.fst <;>
        simp [hk, Ne.symm h]

theorem buildTitleGroups_sound (ie : Bool) (pubs : List Publication) :
    ∀ kg ∈ buildTitleGroups ie pubs,
      (ie = false → kg.1 ≠ "") ∧ ∀ q ∈ kg.2, normTitle q = kg.1 := by
  suffices h : ∀ (ps : List Publication) (gs : List (String × List Publication)),
      (∀ kg ∈ gs, (ie = false → kg.1 ≠ "") ∧ ∀ q ∈ kg.2, normTitle q = kg.1) →
      ∀ kg ∈ List.foldl (titleGroupStep ie) gs ps,
        (ie = false → kg.1 ≠ "") ∧ ∀ q ∈ kg.2, normTitle q = kg.1 by
    intro kg hkg
    exact h pubs [] (by simp) kg hkg
  intro ps
  induction ps with
  | nil => intro gs hgs kg hkg; exact hgs kg hkg
  | cons p rest ih =>
    intro gs hgs kg hkg
    simp only [List.foldl_cons] at hkg
    refine ih (titleGroupStep ie gs p) ?_ kg hkg
    intro kg2 hkg2
    unfold titleGroupStep at hkg2
    by_cases hcond : normTitle p ≠ "" ∨ ie = true
    · simp only [hcond, if_pos] at hkg2
      rcases insertGroup_mem gs (normTitle p) p kg2 hkg2 with h1 | ⟨h1, h2⟩
      · exact hgs kg2 h1
      · constructor
        · intro hie
          subst hie
          rcases hcond with hc | hc
          · rw [h1]; exact hc
          · cases hc
        · intro q hq
          rcases h2 q hq with hq1 | ⟨g0, hg0, hqg0⟩
          · simp at hq1
            subst hq1
            rw [h1]
          · have := (hgs (normTitle p, g0) hg0).2 q hqg0
            rw [h1]
            exact this
    · have hcond2 : ¬(normTitle p ≠ "" ∨ ie) := by
        simpa using hcond
      simp only [hcond2, if_neg, not_false_eq_true] at hkg2
      exact hgs kg2 hkg2

theorem buildTitleGroups_nodup_keys (ie : Bool) (pubs : List Publication) :
    ((buildTitleGroups ie pubs).map Prod.fst).Nodup := by
  suffices h : ∀ (ps : List Publication) (gs : List (String × List Publication)),
      (gs.map Prod.fst).Nodup →
      ((List.foldl (titleGroupStep ie) gs ps).map Prod.fst).Nodup by
    exact h pubs [] (by simp)
  intro ps
  induction ps with
  | nil => intro gs hgs; exact hgs
  | cons p rest ih =>
    intro gs hgs
    simp only [List.foldl_cons]
    refine ih (titleGroupStep ie gs p) ?_
    unfold titleGroupStep
    by_cases hcond : normTitle p ≠ "" ∨ ie = true
    · simp only [hcond, if_pos]
      rw [insertGroup_keys]
      by_cases hk : normTitle p ∈ gs.map Prod.fst
      · simp [hk, hgs]
      · simp [hk, List.nodup_append, hgs]
    · have hcond2 : ¬(normTitle p ≠ "" ∨ ie) := by simpa using hcond
      simp only [hcond2, if_neg, not_false_eq_true]
      exact hgs

theorem assoc_groups_unique {gs : List (String × List Publication)}
    (h : (gs.map Prod.fst).Nodup) {k : String} {g g2 : List Publication}
    (h1 : (k, g) ∈ gs) (h2 : (k, g2) ∈ gs) : g = g2 := by
  induction gs with
  | nil => cases h1
  | cons kg rest ih =>
    simp only [List.map_cons, List.nodup_cons] at h
    rcases List.mem_cons.mp h1 with rfl | h1m
    · rcases List.mem_cons.mp h2 with heq | h2m
      · exact (Prod.ext_iff.mp heq).2.symm
      · exfalso
        exact h.1 (List.mem_map.mpr ⟨(k, g2), h2m, rfl⟩)
    · rcases List.mem_cons.mp h2 with rfl | h2m
      · exfalso
        exact h.1 (List.mem_map.mpr ⟨(k, g), h1m, rfl⟩)
      · exact ih h.2 h1m h2m

theorem mem_applyGroupFilters (gs : List (String × List Publication))
    (p : Publication) :
    p ∈ (applyGroupFilters gs).1 ↔ ∃ kg ∈ gs, p ∈ (filterGroup kg.2).1 := by
  induction gs with
  | nil => simp [applyGroupFilters]
  | cons kg rest ih =>
    simp [applyGroupFilters, ih]

theorem filterGroup_subset (g : List Publication) (q : Publication)
    (hq : q ∈ (filterGroup g).1) : q ∈ g := by
  unfold filterGroup at hq
  by_cases h1 : g.length = 1
  · simpa [h1] using hq
  · simp only [h1, if_false] at hq
    by_cases h2 : (g.filter (fun p => !(isWP p))).filter has_open_access = []
    · simpa [h2] using hq
    · simp only [h2, if_neg, not_false_eq_true] at hq
      exact List.mem_of_mem_filter hq

theorem filterGroup_count (g : List Publication) :
    (filterGroup g).1.length + (filterGroup g).2 = g.length := by
  unfold filterGroup
  by_cases h1 : g.length = 1
  · simp [h1]
  · simp only [h1, if_false]
    by_cases h2 : (g.filter (fun p => !(isWP p))).filter has_open_access = []
    · simp [h2]
    · simp only [h2, if_neg, not_false_eq_true]
      have h3 : (g.filter (fun p => isWP p)).length +
          (g.filter (fun p => !(isWP p))).length = g.length :=
        length_filter_split (fun p => isWP p) g
      omega

theorem applyGroupFilters_count (gs : List (String × List Publication)) :
    (applyGroupFilters gs).1.length + (applyGroupFilters gs).2 = sumSizes gs := by
  induction gs with
  | nil => simp [applyGroupFilters, sumSizes]
  | cons kg rest ih =>
    have h := filterGroup_count kg.2
    simp [applyGroupFilters, sumSizes] at *
    omega

theorem buildTitleGroups_sumSizes (ie : Bool) (pubs : List Publication) :
    sumSizes (buildTitleGroups ie pubs) =
      (pubs.filter (fun p => ie || !(normTitle p == ""))).length := by
  suffices h : ∀ (ps : List Publication) (gs : List (String × List Publication)),
      sumSizes (List.foldl (titleGroupStep ie) gs ps) =
        sumSizes gs + (ps.filter (fun p => ie || !(normTitle p == ""))).length by
    simpa [sumSizes] using h pubs []
  intro ps
  induction ps with
  | nil => intro gs; simp
  | cons p rest ih =>
    intro gs
    simp only [List.foldl_cons, List.filter_cons]
    by_cases hcond : normTitle p ≠ "" ∨ ie = true
    · have hstep : titleGroupStep ie gs p = insertGroup gs (normTitle p) p := by
        simp only [titleGroupStep]
        rw [if_pos hcond]
      have hb : (ie || !(normTitle p == "")) = true := by
        rcases hcond with hc | hc <;> simp [hc]
      rw [hstep, ih, insertGroup_sumSizes, hb]
      simp
      omega
    · have hstep : titleGroupStep ie gs p = gs := by
        simp only [titleGroupStep]
        rw [if_neg hcond]
      have hne : ¬(normTitle p ≠ "" ∨ ie = true) := hcond
      have hb : (ie || !(normTitle p == "")) = false := by
        push_neg at hne
        simp [hne.1, hne.2]
      rw [hstep, ih, hb]
      simp

theorem filterGroup_mixed (g : List Publication) (p1 p2 : Publication)
    (h1 : p1 ∈ g) (hw1 : isWP p1 = true) (h2 : p2 ∈ g) (hw2 : isWP p2 = false)
    (hoa : has_open_access p2 = true) :
    (filterGroup g).1 = g.filter (fun p => !(isWP p)) := by
  have hm1 : p1 ∈ g.filter (fun p => isWP p) :=
    List.mem_filter.mpr ⟨h1, by simp [hw1]⟩
  have hm2 : p2 ∈ g.filter (fun p => !(isWP p)) :=
    List.mem_filter.mpr ⟨h2, by simp [hw2]⟩
  have hl1 : 0 < (g.filter (fun p => isWP p)).length :=
    List.length_pos.mpr (List.ne_nil_of_mem hm1)
  have hl2 : 0 < (g.filter (fun p => !(isWP p))).length :=
    List.length_pos.mpr (List.ne_nil_of_mem hm2)
  have hsplit : (g.filter (fun p => isWP p)).length +
      (g.filter (fun p => !(isWP p))).length = g.length :=
    length_filter_split (fun p => isWP p) g
  have hlen : g.length ≠ 1 := by omega
  have hft : (g.filter (fun p => !(isWP p))).filter has_open_access ≠ [] :=
    List.ne_nil_of_mem (List.mem_filter.mpr ⟨hm2, hoa⟩)
  unfold filterGroup
  simp only [hlen, if_false, hft, if_neg, not_false_eq_true]

theorem filterGroup_keeps (g : List Publication)
    (h : ¬((∃ p ∈ g, isWP p = true) ∧
        ∃ p ∈ g, isWP p = false ∧ has_open_access p = true)) :
    ∀ p ∈ g, p ∈ (filterGroup g).1 := by
  intro p hp
  unfold filterGroup
  by_cases h1 : g.length = 1
  · simpa [h1] using hp
  · simp only [h1, if_false]
    by_cases h2 : (g.filter (fun q => !(isWP q))).filter has_open_access = []
    · simpa [h2] using hp
    · simp only [h2, if_neg, not_false_eq_true]
      obtain ⟨q, hq⟩ := List.exists_mem_of_ne_nil _ h2
      have hq1 := List.mem_filter.mp hq
      have hq2 := List.mem_filter.mp hq1.1
      have hB : ∃ r ∈ g, isWP r = false ∧ has_open_access r = true :=
        ⟨q, hq2.1, by simpa using hq2.2, hq1.2⟩
      have hA : ¬∃ r ∈ g, isWP r = true := fun hA => h ⟨hA, hB⟩
      have hpw : isWP p = false := by
        cases hpw : isWP p
        · rfl
        · exact absurd ⟨p, hp, hpw⟩ hA
      exact List.mem_filter.mpr ⟨hp, by simp [hpw]⟩

theorem filter_working_papers_count (pubs : List Publication)
    (h : ∀ p ∈ pubs, normTitle p ≠ "") :
    (filter_working_papers pubs).1.length + (filter_working_papers pubs).2 =
      pubs.length := by
  have h1 := applyGroupFilters_count (group_by_normalized_title pubs)
  have h2 := buildTitleGroups_sumSizes false pubs
  have h3 : pubs.filter (fun p => false || !(normTitle p == "")) = pubs := by
    apply List.filter_eq_self.mpr
    intro a ha
    simp [h a ha]
  unfold filter_working_papers
  unfold group_by_normalized_title at *
  rw [h1, h2, h3]

theorem mem_filter_working_papers_normTitle (pubs : List Publication)
    (p : Publication) (hp : p ∈ (filter_working_papers pubs).1) :
    normTitle p ≠ "" := by
  rcases (mem_applyGroupFilters (group_by_normalized_title pubs) p).mp hp with
    ⟨kg, hkg, hpin⟩
  have hsub := filterGroup_subset kg.2 p hpin
  have hs := buildTitleGroups_sound false pubs kg hkg
  rw [hs.2 p hsub]
  exact hs.1 rfl

theorem pc2_filter_group_le (g : List Publication) :
    (pc2_filter_group g).length ≤ g.length := by
  unfold pc2_filter_group
  by_cases h : g.filter (fun p => !(isWP p)) = []
  · simp [h]
  · simp only [h, if_neg, not_false_eq_true]
    exact List.length_filter_le _ g

theorem pc2_concat_le (gs : List (String × List Publication)) :
    (pc2_concat gs).length ≤ sumSizes gs := by
  induction gs with
  | nil => simp [pc2_concat, sumSizes]
  | cons kg rest ih =>
    have := pc2_filter_group_le kg.2
    simp [pc2_concat, sumSizes] at *
    omega

theorem pc2_final_le_total (pubs : List Publication) :
    (pc2_concat (pc2_group pubs)).length ≤ pubs.length := by
  have h1 := pc2_concat_le (pc2_group pubs)
  have h2 := buildTitleGroups_sumSizes true pubs
  unfold pc2_group at *
  simp only [Bool.true_or, List.filter_true] at h2
  omega

theorem eraseDoi_filter (q : Publication → Bool)
    (h : ∀ a, q (eraseDoi a) = q a) (l : List Publication) :
    (l.map eraseDoi).filter q = (l.filter q).map eraseDoi :=
  filter_map_general eraseDoi q q h l

theorem insertGroup_eraseDoi (gs : List (String × List Publication))
    (k : String) (p : Publication) :
    insertGroup (gsEraseDoi gs) k (eraseDoi p) = gsEraseDoi (insertGroup gs k p) := by
  induction gs with
  | nil => simp [insertGroup, gsEraseDoi]
  | cons kg rest ih =>
    obtain ⟨k0, ps⟩ := kg
    by_cases h : k0 = k
    · simp [insertGroup, gsEraseDoi, h] at *
    · simp [insertGroup, gsEraseDoi, h] at *
      simpa [gsEraseDoi] using ih

theorem buildTitleGroups_eraseDoi (ie : Bool) (pubs : List Publication) :
    buildTitleGroups ie (pubs.map eraseDoi) = gsEraseDoi (buildTitleGroups ie pubs) := by
  suffices h : ∀ (ps : List Publication) (gs : List (String × List Publication)),
      List.foldl (titleGroupStep ie) (gsEraseDoi gs) (ps.map eraseDoi) =
        gsEraseDoi (List.foldl (titleGroupStep ie) gs ps) by
    simpa [gsEraseDoi] using h pubs []
  intro ps
  induction ps with
  | nil => intro gs; simp
  | cons p rest ih =>
    intro gs
    simp only [List.map_cons, List.foldl_cons]
    have hkey : normTitle (eraseDoi p) = normTitle p := by
      cases p
      rfl
    have hstep : titleGroupStep ie (gsEraseDoi gs) (eraseDoi p) =
        gsEraseDoi (titleGroupStep ie gs p) := by
      simp only [titleGroupStep, hkey]
      by_cases hcond : normTitle p ≠ "" ∨ ie = true
      · rw [if_pos hcond, if_pos hcond, insertGroup_eraseDoi]
      · rw [if_neg hcond, if_neg hcond]
    rw [hstep, ih]

theorem filterGroup_eraseDoi (g : List Publication) :
    filterGroup (g.map eraseDoi) =
      ((filterGroup g).1.map eraseDoi, (filterGroup g).2) := by
  unfold filterGroup
  have hwp : (g.map eraseDoi).filter (fun p => !(isWP p)) =
      (g.filter (fun p => !(isWP p))).map eraseDoi :=
    eraseDoi_filter (fun p => !(isWP p)) (fun a => rfl) g
  have hwp2 : (g.map eraseDoi).filter (fun p => isWP p) =
      (g.filter (fun p => isWP p)).map eraseDoi :=
    eraseDoi_filter (fun p => isWP p) (fun a => rfl) g
  have hft : ((g.filter (fun p => !(isWP p))).map eraseDoi).filter has_open_access =
      ((g.filter (fun p => !(isWP p))).filter has_open_access).map eraseDoi :=
    eraseDoi_filter has_open_access (fun a => rfl) _
  by_cases h1 : g.length = 1
  · simp [h1]
  · have h1m : ¬((g.map eraseDoi).length = 1) := by simpa using h1
    simp only [h1, h1m, if_false, hwp, hwp2, hft]
    by_cases h2 : (g.filter (fun p => !(isWP p))).filter has_open_access = []
    · rw [h2]
      simp
    · have h2m : ¬(((g.filter (fun p => !(isWP p))).filter has_open_access).map
          eraseDoi = []) := by simpa using h2
      rw [if_neg h2m, if_neg h2]
      simp

theorem applyGroupFilters_eraseDoi (gs : List (String × List Publication)) :
    applyGroupFilters (gsEraseDoi gs) =
      ((applyGroupFilters gs).1.map eraseDoi, (applyGroupFilters gs).2) := by
  induction gs with
  | nil => simp [applyGroupFilters, gsEraseDoi]
  | cons kg rest ih =>
    simp only [gsEraseDoi, List.map_cons] at *
    simp only [applyGroupFilters, filterGroup_eraseDoi, ih]
    simp

theorem fwp_eraseDoi (pubs : List Publication) :
    filter_working_papers (pubs.map eraseDoi) =
      ((filter_working_papers pubs).1.map eraseDoi,
        (filter_working_papers pubs).2) := by
  unfold filter_working_papers group_by_normalized_title
  rw [buildTitleGroups_eraseDoi, applyGroupFilters_eraseDoi]

/-- C1 counterexample: two publications share the non-empty DOI 10.1/x with
document types COMM and ART, a group that is not OUV plus COUV, yet both
survive process_publications: the source performs no DOI-based deduplication,
so the claimed collapse to the single highest-priority member is false. -/
theorem C1_counterexample :
    pubCommC1.doi = some "10.1/x" ∧ pubArtC1.doi = some "10.1/x" ∧
    pubCommC1.docType = some "COMM" ∧ pubArtC1.docType = some "ART" ∧
    (process_publications [] [pubCommC1, pubArtC1]).publications =
      [pubCommC1, pubArtC1] := by decide

/-- C1 as amended: process_publications performs no DOI-based deduplication at
all.  Its statistics, retained publications, and excluded communications are
invariant under erasing every DOI from the input, so survival never depends on
DOI groups. -/
theorem C1_doi_invariance (blacklist : List String) (pubs : List Publication) :
    (process_publications blacklist (pubs.map eraseDoi)).stats =
        (process_publications blacklist pubs).stats ∧
    (process_publications blacklist (pubs.map eraseDoi)).publications =
        (process_publications blacklist pubs).publications.map eraseDoi ∧
    (process_publications blacklist (pubs.map eraseDoi)).excluded_communications =
        (process_publications blacklist pubs).excluded_communications.map
          eraseDoi := by
  have f1 : (pubs.map eraseDoi).filter cired_related =
      (pubs.filter cired_related).map eraseDoi :=
    eraseDoi_filter cired_related (fun a => rfl) pubs
  have f1n : (pubs.map eraseDoi).filter (fun p => !(cired_related p)) =
      (pubs.filter (fun p => !(cired_related p))).map eraseDoi :=
    eraseDoi_filter (fun p => !(cired_related p)) (fun a => rfl) pubs
  have f2 : ((pubs.filter cired_related).map eraseDoi).filter
        (fun p => !(blacklist.contains (p.halId.getD ""))) =
      ((pubs.filter cired_related).filter
        (fun p => !(blacklist.contains (p.halId.getD "")))).map eraseDoi :=
    eraseDoi_filter (fun p => !(blacklist.contains (p.halId.getD "")))
      (fun a => rfl) _
  have f2p : ((pubs.filter cired_related).map eraseDoi).filter
        (fun p => blacklist.contains (p.halId.getD "")) =
      ((pubs.filter cired_related).filter
        (fun p => blacklist.contains (p.halId.getD ""))).map eraseDoi :=
    eraseDoi_filter (fun p => blacklist.contains (p.halId.getD ""))
      (fun a => rfl) _
  have f3 : (((pubs.filter cired_related).filter
        (fun p => !(blacklist.contains (p.halId.getD "")))).map eraseDoi).filter
        has_open_access =
      (((pubs.filter cired_related).filter
        (fun p => !(blacklist.contains (p.halId.getD "")))).filter
        has_open_access).map eraseDoi :=
    eraseDoi_filter has_open_access (fun a => rfl) _
  have f3n : (((pubs.filter cired_related).filter
        (fun p => !(blacklist.contains (p.halId.getD "")))).map eraseDoi).filter
        (fun p => !(has_open_access p)) =
      (((pubs.filter cired_related).filter
        (fun p => !(blacklist.contains (p.halId.getD "")))).filter
        (fun p => !(has_open_access p))).map eraseDoi :=
    eraseDoi_filter (fun p => !(has_open_access p)) (fun a => rfl) _
  have ffwp := fwp_eraseDoi (((pubs.filter cired_related).filter
    (fun p => !(blacklist.contains (p.halId.getD "")))).filter has_open_access)
  refine ⟨?_, ?_, ?_⟩ <;>
    simp only [process_publications, f1, f1n, f2, f2p, f3, f3n, ffwp,
      List.length_map]

/-- C2 counterexample: the records pubArtC2 (type ART, no open access) and
pubUndefC2 (type UNDEFINED, a working paper) share a normalized title, so the
group has a working paper and a non-working-paper; the claim says the working
paper is excluded, yet filter_working_papers keeps the whole group because no
non-working-paper sibling has open access. -/
theorem C2_counterexample :
    isWP pubUndefC2 = true ∧ isWP pubArtC2 = false ∧
    normTitle pubArtC2 = normTitle pubUndefC2 ∧
    pubUndefC2 ∈ (filter_working_papers [pubArtC2, pubUndefC2]).1 := by decide

/-- C2 as amended: in a normalized-title group holding at least one working
paper and at least one non-working-paper that has open access, no working
paper of the group survives filter_working_papers; otherwise every member of
the group survives. -/
theorem C2_working_paper_filter (pubs : List Publication) (k : String)
    (g : List Publication) (hg : (k, g) ∈ group_by_normalized_title pubs) :
    ((∃ p ∈ g, isWP p = true) ∧
        (∃ p ∈ g, isWP p = false ∧ has_open_access p = true) →
      ∀ p ∈ g, isWP p = true → p ∉ (filter_working_papers pubs).1) ∧
    (¬((∃ p ∈ g, isWP p = true) ∧
        (∃ p ∈ g, isWP p = false ∧ has_open_access p = true)) →
      ∀ p ∈ g, p ∈ (filter_working_papers pubs).1) := by
  constructor
  · rintro ⟨⟨p1, hp1, hw1⟩, ⟨p2, hp2, hw2, hoa⟩⟩ p hp hpw hmem
    rcases (mem_applyGroupFilters (group_by_normalized_title pubs) p).mp hmem
      with ⟨kg, hkg, hpin⟩
    obtain ⟨k2, g2⟩ := kg
    have hsub := filterGroup_subset g2 p hpin
    have hkey1 := (buildTitleGroups_sound false pubs (k2, g2) hkg).2 p hsub
    have hkey2 := (buildTitleGroups_sound false pubs (k, g) hg).2 p hp
    have hkk : k2 = k := hkey1.symm.trans hkey2
    subst hkk
    have hnodup := buildTitleGroups_nodup_keys false pubs
    have hgeq : g2 = g := assoc_groups_unique hnodup hkg hg
    subst hgeq
    rw [filterGroup_mixed g2 p1 p2 hp1 hw1 hp2 hw2 hoa] at hpin
    have hker := (List.mem_filter.mp hpin).2
    rw [hpw] at hker
    cases hker
  · intro hnot p hp
    exact (mem_applyGroupFilters (group_by_normalized_title pubs) p).mpr
      ⟨(k, g), hg, filterGroup_keeps g hnot p hp⟩

/-- C2 witness: instantiated at a concrete two-record catalog whose title
group mixes a working paper with an open-access ART record, the amended
theorem shows the working paper is excluded. -/
theorem C2_witness :
    pubUndefOAC2 ∉ (filter_working_papers [pubArtOAC2, pubUndefOAC2]).1 :=
  (C2_working_paper_filter [pubArtOAC2, pubUndefOAC2] "joint work"
      [pubArtOAC2, pubUndefOAC2] (by decide)).1
    ⟨⟨pubUndefOAC2, by decide, by decide⟩,
      ⟨pubArtOAC2, by decide, by decide, by decide⟩⟩
    pubUndefOAC2 (by decide) (by decide)

/-- C3 counterexample: a single related publication without open access gives
total_retrieved = 1 but final_count = 0 and working_papers_excluded = 0, and
no doi_duplicates_excluded counter exists in the emitted statistics, so the
claimed identity final + working_papers + doi_duplicates = total fails. -/
theorem C3_counterexample :
    (process_publications [] [pubNoOAC3]).stats.final_count
      + (process_publications [] [pubNoOAC3]).stats.working_papers_excluded
      ≠ (process_publications [] [pubNoOAC3]).stats.total_retrieved := by decide

/-- C3 as amended: the statistics of prepare_catalog reconcile over all five
exclusion counters it actually emits, provided no record has an empty
normalized title: final + working_papers + cired_conference + blacklisted +
no_open_access = total; and in the pc2 variant, which emits only a
working-paper counter, final + working_papers = total holds unconditionally.
Neither variant emits a doi_duplicates_excluded counter. -/
theorem C3_stats_reconcile (blacklist : List String)
    (pubs pubs2 : List Publication) (h : ∀ p ∈ pubs, normTitle p ≠ "") :
    ((process_publications blacklist pubs).stats.final_count
      + (process_publications blacklist pubs).stats.working_papers_excluded
      + (process_publications blacklist pubs).stats.cired_conference_excluded
      + (process_publications blacklist pubs).stats.blacklisted_excluded
      + (process_publications blacklist pubs).stats.no_open_access_excluded
      = (process_publications blacklist pubs).stats.total_retrieved) ∧
    ((pc2_process_publications pubs2).final_count
      + (pc2_process_publications pubs2).working_papers_excluded
      = (pc2_process_publications pubs2).total_retrieved) := by
  constructor
  · have hsplit1 : (pubs.filter cired_related).length +
        (pubs.filter (fun p => !(cired_related p))).length = pubs.length :=
      length_filter_split cired_related pubs
    have hsplit2 : ((pubs.filter cired_related).filter
          (fun p => blacklist.contains (p.halId.getD ""))).length +
        ((pubs.filter cired_related).filter
          (fun p => !(blacklist.contains (p.halId.getD "")))).length =
        (pubs.filter cired_related).length :=
      length_filter_split
        (fun p : Publication => blacklist.contains (p.halId.getD "")) _
    have hsplit3 : (((pubs.filter cired_related).filter
          (fun p => !(blacklist.contains (p.halId.getD "")))).filter
          has_open_access).length +
        (((pubs.filter cired_related).filter
          (fun p => !(blacklist.contains (p.halId.getD "")))).filter
          (fun p => !(has_open_access p))).length =
        ((pubs.filter cired_related).filter
          (fun p => !(blacklist.contains (p.halId.getD "")))).length :=
      length_filter_split has_open_access _
    have hOA : ∀ p ∈ ((pubs.filter cired_related).filter
          (fun p => !(blacklist.contains (p.halId.getD "")))).filter
          has_open_access, normTitle p ≠ "" := by
      intro p hp
      exact h p (List.mem_of_mem_filter
        (List.mem_of_mem_filter (List.mem_of_mem_filter hp)))
    have hfwp := filter_working_papers_count _ hOA
    simp only [process_publications]
    omega
  · have hle := pc2_final_le_total pubs2
    simp only [pc2_process_publications]
    omega

/-- C3 witness: on a concrete one-record catalog with a normal title, both
reconciliation identities hold. -/
theorem C3_witness :
    (process_publications [] [pubNoOAC3]).stats.final_count
      + (process_publications [] [pubNoOAC3]).stats.working_papers_excluded
      + (process_publications [] [pubNoOAC3]).stats.cired_conference_excluded
      + (process_publications [] [pubNoOAC3]).stats.blacklisted_excluded
      + (process_publications [] [pubNoOAC3]).stats.no_open_access_excluded
      = (process_publications [] [pubNoOAC3]).stats.total_retrieved :=
  (C3_stats_reconcile [] [pubNoOAC3] [] (by decide)).1

/-- C10: a publication whose normalized title is empty is placed in no title
group, never appears in the output of filter_working_papers, and is not
counted by the returned exclusion count: kept plus excluded equals the number
of records with a non-empty normalized title, which is strictly below the
input size whenever such a record exists. -/
theorem C10_titleless_dropped (pubs : List Publication)
    (h : ∃ p ∈ pubs, normTitle p = "") :
    (∀ kg ∈ group_by_normalized_title pubs, ∀ p ∈ kg.2, normTitle p ≠ "") ∧
    (∀ p ∈ (filter_working_papers pubs).1, normTitle p ≠ "") ∧
    ((filter_working_papers pubs).1.length + (filter_working_papers pubs).2 =
      (pubs.filter (fun p => !(normTitle p == ""))).length) ∧
    ((filter_working_papers pubs).1.length + (filter_working_papers pubs).2 <
      pubs.length) := by
  have hgroups : ∀ kg ∈ group_by_normalized_title pubs,
      ∀ p ∈ kg.2, normTitle p ≠ "" := by
    intro kg hkg p hp
    have hs := buildTitleGroups_sound false pubs kg hkg
    rw [hs.2 p hp]
    exact hs.1 rfl
  have hcount : (filter_working_papers pubs).1.length +
      (filter_working_papers pubs).2 =
      (pubs.filter (fun p => !(normTitle p == ""))).length := by
    have h1 := applyGroupFilters_count (group_by_normalized_title pubs)
    have h2 := buildTitleGroups_sumSizes false pubs
    have h3 : pubs.filter (fun p => false || !(normTitle p == "")) =
        pubs.filter (fun p => !(normTitle p == "")) := by
      simp only [Bool.false_or]
    unfold filter_working_papers
    unfold group_by_normalized_title at *
    rw [h1, h2, h3]
  refine ⟨hgroups, fun p hp => mem_filter_working_papers_normTitle pubs p hp,
    hcount, ?_⟩
  rw [hcount]
  obtain ⟨p, hp, hp0⟩ := h
  refine length_filter_lt hp ?_
  simp [hp0]

/-- C10 witness: with the punctuation-only-titled record as input, the output
and the exclusion count together fall strictly below the input size. -/
theorem C10_witness :
    (filter_working_papers [pubDotsC10]).1.length +
      (filter_working_papers [pubDotsC10]).2 <
      ([pubDotsC10] : List Publication).length :=
  (C10_titleless_dropped [pubDotsC10] ⟨pubDotsC10, by decide, by decide⟩).2.2.2

theorem process_matches_dry (ok : String → Bool) (ms : List DocMatch) :
    (process_matches false ok ms).calls = [] ∧
    (process_matches false ok ms).deleteCount +
      (process_matches false ok ms).skipCount = ms.length := by
  induction ms with
  | nil => simp [process_matches]
  | cons m rest ih =>
    by_cases hupd : needs_metadata_update m.documentRow m.catalogEntry = [] <;>
      · simp [process_matches, hupd, delete_document, ih.1]
        omega

theorem uploadLoop_success_le (ex : List (String × String))
    (mbf : List (String × Publication)) (cr : String → Option String)
    (N : Int) (hN : 0 < N) (files : List PdfFile) :
    ∀ (s k : Nat) (fails : List (PdfFile × String)) (calls : List RemoteCall),
      (s : Int) ≤ N →
      ((uploadLoop ex mbf cr N files s k fails calls).success : Int) ≤ N := by
  induction files with
  | nil =>
    intro s k fails calls hs
    simpa [uploadLoop] using hs
  | cons f rest ih =>
    intro s k fails calls hs
    simp only [uploadLoop]
    by_cases hbreak : 0 < N ∧ N ≤ (s : Int)
    · rw [if_pos hbreak]
      simpa using hs
    · rw [if_neg hbreak]
      have hlt : (s : Int) < N := by
        by_contra hc
        push_neg at hc
        exact hbreak ⟨hN, hc⟩
      by_cases hskip : assocGet ex (docTitleFor mbf f.stem) ≠ none ∧
          assocGet ex (docTitleFor mbf f.stem) ≠ some "failed"
      · rw [if_pos hskip]
        exact ih s (k + 1) fails calls hs
      · rw [if_neg hskip]
        cases hcr : cr (pdfPath f) with
        | none => exact ih (s + 1) k fails _ (by push_cast; omega)
        | some err => exact ih s k _ _ hs

theorem uploadLoop_saturated (ex : List (String × String))
    (mbf : List (String × Publication)) (cr : String → Option String)
    (N : Int) (l : List PdfFile) (s k : Nat) (fails : List (PdfFile × String))
    (calls : List RemoteCall) (h : 0 < N ∧ N ≤ (s : Int)) :
    uploadLoop ex mbf cr N l s k fails calls = ⟨s, k, fails, calls⟩ := by
  cases l with
  | nil => rfl
  | cons f t =>
    simp only [uploadLoop]
    rw [if_pos h]

theorem uploadLoop_creates (ex : List (String × String))
    (mbf : List (String × Publication)) (cr : String → Option String)
    (N : Int) (files : List PdfFile) :
    ∀ (s k : Nat) (fails : List (PdfFile × String)) (calls : List RemoteCall),
      successfulCreates cr (uploadLoop ex mbf cr N files s k fails calls).calls
          + s =
        (uploadLoop ex mbf cr N files s k fails calls).success +
          successfulCreates cr calls := by
  induction files with
  | nil =>
    intro s k fails calls
    simp only [uploadLoop]
    omega
  | cons f rest ih =>
    intro s k fails calls
    simp only [uploadLoop]
    by_cases hbreak : 0 < N ∧ N ≤ (s : Int)
    · rw [if_pos hbreak]
      dsimp only
      omega
    · rw [if_neg hbreak]
      by_cases hskip : assocGet ex (docTitleFor mbf f.stem) ≠ none ∧
          assocGet ex (docTitleFor mbf f.stem) ≠ some "failed"
      · rw [if_pos hskip]
        exact ih s (k + 1) fails calls
      · rw [if_neg hskip]
        cases hcr : cr (pdfPath f) with
        | none =>
          dsimp only
          have hrec := ih (s + 1) k fails
            (calls ++ [RemoteCall.create (pdfPath f)])
          have hadd : successfulCreates cr
              (calls ++ [RemoteCall.create (pdfPath f)]) =
              successfulCreates cr calls + 1 := by
            simp [successfulCreates, List.countP_append, List.countP_cons, hcr]
          omega
        | some err =>
          dsimp only
          have hrec := ih s k (fails ++ [(f, err)])
            (calls ++ [RemoteCall.create (pdfPath f)])
          have hadd : successfulCreates cr
              (calls ++ [RemoteCall.create (pdfPath f)]) =
              successfulCreates cr calls := by
            simp [successfulCreates, List.countP_append, List.countP_cons, hcr]
          omega

theorem uploadLoop_cons_skip (ex : List (String × String))
    (mbf : List (String × Publication)) (cr : String → Option String)
    (N : Int) (f : PdfFile) (rest : List PdfFile) (s k : Nat)
    (fails : List (PdfFile × String)) (calls : List RemoteCall)
    (hbreak : ¬(0 < N ∧ N ≤ (s : Int)))
    (hskip : assocGet ex (docTitleFor mbf f.stem) ≠ none ∧
      assocGet ex (docTitleFor mbf f.stem) ≠ some "failed") :
    uploadLoop ex mbf cr N (f :: rest) s k fails calls =
      uploadLoop ex mbf cr N rest s (k + 1) fails calls := by
  simp only [uploadLoop]
  rw [if_neg hbreak, if_pos hskip]

theorem uploadLoop_cons_ok (ex : List (String × String))
    (mbf : List (String × Publication)) (cr : String → Option String)
    (N : Int) (f : PdfFile) (rest : List PdfFile) (s k : Nat)
    (fails : List (PdfFile × String)) (calls : List RemoteCall)
    (hbreak : ¬(0 < N ∧ N ≤ (s : Int)))
    (hskip : ¬(assocGet ex (docTitleFor mbf f.stem) ≠ none ∧
      assocGet ex (docTitleFor mbf f.stem) ≠ some "failed"))
    (hcr : cr (pdfPath f) = none) :
    uploadLoop ex mbf cr N (f :: rest) s k fails calls =
      uploadLoop ex mbf cr N rest (s + 1) k fails
        (calls ++ [RemoteCall.create (pdfPath f)]) := by
  simp only [uploadLoop]
  rw [if_neg hbreak, if_neg hskip, hcr]

theorem uploadLoop_cons_err (ex : List (String × String))
    (mbf : List (String × Publication)) (cr : String → Option String)
    (N : Int) (f : PdfFile) (rest : List PdfFile) (s k : Nat)
    (fails : List (PdfFile × String)) (calls : List RemoteCall)
    (e : String) (hbreak : ¬(0 < N ∧ N ≤ (s : Int)))
    (hskip : ¬(assocGet ex (docTitleFor mbf f.stem) ≠ none ∧
      assocGet ex (docTitleFor mbf f.stem) ≠ some "failed"))
    (hcr : cr (pdfPath f) = some e) :
    uploadLoop ex mbf cr N (f :: rest) s k fails calls =
      uploadLoop ex mbf cr N rest s k (fails ++ [(f, e)])
        (calls ++ [RemoteCall.create (pdfPath f)]) := by
  simp only [uploadLoop]
  rw [if_neg hbreak, if_neg hskip, hcr]

theorem uploadLoop_append (ex : List (String × String))
    (mbf : List (String × Publication)) (cr : String → Option String)
    (N : Int) (l1 l2 : List PdfFile) :
    ∀ (s k : Nat) (fails : List (PdfFile × String)) (calls : List RemoteCall),
      uploadLoop ex mbf cr N (l1 ++ l2) s k fails calls =
        uploadLoop ex mbf cr N l2
          (uploadLoop ex mbf cr N l1 s k fails calls).success
          (uploadLoop ex mbf cr N l1 s k fails calls).skipped
          (uploadLoop ex mbf cr N l1 s k fails calls).failed
          (uploadLoop ex mbf cr N l1 s k fails calls).calls := by
  induction l1 with
  | nil =>
    intro s k fails calls
    simp [uploadLoop]
  | cons f rest ih =>
    intro s k fails calls
    rw [List.cons_append]
    by_cases hbreak : 0 < N ∧ N ≤ (s : Int)
    · rw [uploadLoop_saturated ex mbf cr N (f :: (rest ++ l2)) s k fails calls
        hbreak]
      rw [uploadLoop_saturated ex mbf cr N (f :: rest) s k fails calls hbreak]
      dsimp only
      exact (uploadLoop_saturated ex mbf cr N l2 s k fails calls hbreak).symm
    · by_cases hskip : assocGet ex (docTitleFor mbf f.stem) ≠ none ∧
          assocGet ex (docTitleFor mbf f.stem) ≠ some "failed"
      · rw [uploadLoop_cons_skip ex mbf cr N f (rest ++ l2) s k fails calls
          hbreak hskip]
        rw [uploadLoop_cons_skip ex mbf cr N f rest s k fails calls
          hbreak hskip]
        exact ih s (k + 1) fails calls
      · cases hcr : cr (pdfPath f) with
        | none =>
          rw [uploadLoop_cons_ok ex mbf cr N f (rest ++ l2) s k fails calls
            hbreak hskip hcr]
          rw [uploadLoop_cons_ok ex mbf cr N f rest s k fails calls
            hbreak hskip hcr]
          exact ih (s + 1) k fails (calls ++ [RemoteCall.create (pdfPath f)])
        | some e =>
          rw [uploadLoop_cons_err ex mbf cr N f (rest ++ l2) s k fails calls e
            hbreak hskip hcr]
          rw [uploadLoop_cons_err ex mbf cr N f rest s k fails calls e
            hbreak hskip hcr]
          exact ih s k (fails ++ [(f, e)])
            (calls ++ [RemoteCall.create (pdfPath f)])

theorem isSkippedFile_true_iff (ex : List (String × String))
    (mbf : List (String × Publication)) (f : PdfFile) :
    isSkippedFile ex mbf f = true ↔
      (assocGet ex (docTitleFor mbf f.stem) ≠ none ∧
        assocGet ex (docTitleFor mbf f.stem) ≠ some "failed") := by
  unfold isSkippedFile
  rcases hx : assocGet ex (docTitleFor mbf f.stem) with _ | st
  · simp
  · simp

theorem uploadLoop_char (ex : List (String × String))
    (mbf : List (String × Publication)) (cr : String → Option String)
    (N : Int) (l : List PdfFile) :
    ∀ (s k : Nat) (fails : List (PdfFile × String)) (calls : List RemoteCall),
      ((s : Int) + l.length ≤ N) →
      (uploadLoop ex mbf cr N l s k fails calls).success =
          s + (l.filter (fun fl => !(isSkippedFile ex mbf fl) &&
            createSucceeds cr fl)).length ∧
      (uploadLoop ex mbf cr N l s k fails calls).skipped =
          k + (l.filter (fun fl => isSkippedFile ex mbf fl)).length ∧
      (uploadLoop ex mbf cr N l s k fails calls).failed.length =
          fails.length + (l.filter (fun fl => !(isSkippedFile ex mbf fl) &&
            !(createSucceeds cr fl))).length := by
  induction l with
  | nil =>
    intro s k fails calls h
    simp [uploadLoop]
  | cons f rest ih =>
    intro s k fails calls hlen
    simp only [List.length_cons] at hlen
    have hbreak : ¬(0 < N ∧ N ≤ (s : Int)) := by
      rintro ⟨h1, h2⟩
      push_cast at hlen
      omega
    by_cases hskip : assocGet ex (docTitleFor mbf f.stem) ≠ none ∧
        assocGet ex (docTitleFor mbf f.stem) ≠ some "failed"
    · have hb : isSkippedFile ex mbf f = true :=
        (isSkippedFile_true_iff ex mbf f).mpr hskip
      rw [uploadLoop_cons_skip ex mbf cr N f rest s k fails calls hbreak hskip]
      obtain ⟨i1, i2, i3⟩ := ih s (k + 1) fails calls
        (by push_cast at hlen ⊢; omega)
      refine ⟨?_, ?_, ?_⟩
      · rw [i1]
        simp [List.filter_cons, hb]
      · rw [i2]
        simp [List.filter_cons, hb]
        omega
      · rw [i3]
        simp [List.filter_cons, hb]
    · have hb : isSkippedFile ex mbf f = false := by
        cases hbv : isSkippedFile ex mbf f
        · rfl
        · exact absurd ((isSkippedFile_true_iff ex mbf f).mp hbv) hskip
      cases hcr : cr (pdfPath f) with
      | none =>
        have hcs : createSucceeds cr f = true := by
          simp [createSucceeds, hcr]
        rw [uploadLoop_cons_ok ex mbf cr N f rest s k fails calls
          hbreak hskip hcr]
        obtain ⟨i1, i2, i3⟩ := ih (s + 1) k fails
          (calls ++ [RemoteCall.create (pdfPath f)])
          (by push_cast at hlen ⊢; omega)
        refine ⟨?_, ?_, ?_⟩
        · rw [i1]
          simp [List.filter_cons, hb, hcs]
          omega
        · rw [i2]
          simp [List.filter_cons, hb, hcs]
        · rw [i3]
          simp [List.filter_cons, hb, hcs]
      | some e =>
        have hcs : createSucceeds cr f = false := by
          simp [createSucceeds, hcr]
        rw [uploadLoop_cons_err ex mbf cr N f rest s k fails calls e
          hbreak hskip hcr]
        obtain ⟨i1, i2, i3⟩ := ih s k (fails ++ [(f, e)])
          (calls ++ [RemoteCall.create (pdfPath f)])
          (by push_cast at hlen ⊢; omega)
        refine ⟨?_, ?_, ?_⟩
        · rw [i1]
          simp [List.filter_cons, hb, hcs]
        · rw [i2]
          simp [List.filter_cons, hb, hcs]
        · rw [i3]
          simp [List.filter_cons, hb, hcs]
          omega

theorem process_matches_exec (ok : String → Bool) (ms : List DocMatch) :
    (process_matches true ok ms).calls =
      (ms.filter (fun m => !((needs_metadata_update m.documentRow
        m.catalogEntry).isEmpty))).map (fun m => RemoteCall.delete m.docId) ∧
    (process_matches true ok ms).deleteCount =
      (ms.filter (fun m => !((needs_metadata_update m.documentRow
        m.catalogEntry).isEmpty) && ok m.docId)).length ∧
    (process_matches true ok ms).skipCount =
      (ms.filter (fun m => (needs_metadata_update m.documentRow
        m.catalogEntry).isEmpty)).length := by
  induction ms with
  | nil => simp [process_matches]
  | cons m rest ih =>
    obtain ⟨i1, i2, i3⟩ := ih
    by_cases hupd : needs_metadata_update m.documentRow m.catalogEntry = []
    · have hb : (needs_metadata_update m.documentRow m.catalogEntry).isEmpty
          = true := by simp [hupd]
      refine ⟨?_, ?_, ?_⟩ <;>
        simp [process_matches, hupd, List.filter_cons, hb, i1, i2, i3]
    · have hb : (needs_metadata_update m.documentRow m.catalogEntry).isEmpty
          = false := by
        cases hbv : (needs_metadata_update m.documentRow m.catalogEntry).isEmpty
        · rfl
        · exact absurd (List.isEmpty_iff.mp hbv) hupd
      cases hok : ok m.docId <;>
        · refine ⟨?_, ?_, ?_⟩ <;>
            simp [process_matches, hupd, delete_document, List.filter_cons,
              hb, hok, i1, i2, i3] <;> omega

/-- C4 counterexample: with budget 0 and a candidate that would be reported
as skipped, upload_pdfs returns immediately with all counters zero, while the
same input under budget 1 walks the list and reports the skip: the dry-run
executor does not walk the candidate list, contradicting the claim that it
still walks the full decision list and reports what would happen. -/
theorem C4_counterexample :
    upload_pdfs [⟨"hal-1"⟩] [("hal-1", "success")] [] (fun _ => none) 0 =
      ⟨0, 0, [], []⟩ ∧
    upload_pdfs [⟨"hal-1"⟩] [("hal-1", "success")] [] (fun _ => none) 1 =
      ⟨0, 1, [], []⟩ := by decide

/-- C4 as amended: with budget 0 no create call is issued and upload_pdfs
returns immediately with zero counters, without walking the candidate list;
and with the execute flag off the delete executor issues no delete call while
it does walk the full match list, counting every match as either a would-be
delete or a skip. -/
theorem C4_dry_run_no_calls :
    (∀ (files : List PdfFile) (ex : List (String × String))
        (mbf : List (String × Publication)) (cr : String → Option String),
      upload_pdfs files ex mbf cr 0 = ⟨0, 0, [], []⟩) ∧
    (∀ (ms : List DocMatch) (ok : String → Bool),
      (process_matches false ok ms).calls = [] ∧
      (process_matches false ok ms).deleteCount +
        (process_matches false ok ms).skipCount = ms.length) := by
  constructor
  · intro files ex mbf cr
    rfl
  · intro ms ok
    exact process_matches_dry ok ms

/-- C5: with a positive upload budget N, upload_pdfs performs at most N
successful create calls: the returned success count matches the number of
successful creates in the call trace and never exceeds N, and once N
successes are reached the run is unchanged by any further candidates
appended to the list. -/
theorem C5_upload_budget (files : List PdfFile) (ex : List (String × String))
    (mbf : List (String × Publication)) (cr : String → Option String)
    (N : Int) (hN : 0 < N) :
    (((upload_pdfs files ex mbf cr N).success : Int) ≤ N) ∧
    (successfulCreates cr (upload_pdfs files ex mbf cr N).calls =
      (upload_pdfs files ex mbf cr N).success) ∧
    (∀ extra : List PdfFile,
      ((upload_pdfs files ex mbf cr N).success : Int) = N →
      upload_pdfs (files ++ extra) ex mbf cr N =
        upload_pdfs files ex mbf cr N) := by
  have hne : N ≠ 0 := by omega
  have h0 : upload_pdfs files ex mbf cr N =
      uploadLoop ex mbf cr N files 0 0 [] [] := by
    unfold upload_pdfs
    rw [if_neg hne]
  refine ⟨?_, ?_, ?_⟩
  · rw [h0]
    exact uploadLoop_success_le ex mbf cr N hN files 0 0 [] [] (by omega)
  · rw [h0]
    have h1 := uploadLoop_creates ex mbf cr N files 0 0 [] []
    simp only [successfulCreates, List.countP_nil] at h1 ⊢
    omega
  · intro extra hsucc
    rw [h0] at hsucc
    have h0b : upload_pdfs (files ++ extra) ex mbf cr N =
        uploadLoop ex mbf cr N (files ++ extra) 0 0 [] [] := by
      unfold upload_pdfs
      rw [if_neg hne]
    rw [h0b, h0, uploadLoop_append]
    rw [uploadLoop_saturated ex mbf cr N extra
      (uploadLoop ex mbf cr N files 0 0 [] []).success
      (uploadLoop ex mbf cr N files 0 0 [] []).skipped
      (uploadLoop ex mbf cr N files 0 0 [] []).failed
      (uploadLoop ex mbf cr N files 0 0 [] []).calls
      ⟨hN, by rw [hsucc]⟩]

/-- C5 witness: three all-succeeding candidates under budget 2 yield a
success count within the budget. -/
theorem C5_witness :
    ((upload_pdfs [⟨"a"⟩, ⟨"b"⟩, ⟨"c"⟩] [] [] (fun _ => none) 2).success
      : Int) ≤ 2 :=
  (C5_upload_budget [⟨"a"⟩, ⟨"b"⟩, ⟨"c"⟩] [] [] (fun _ => none) 2
    (by decide)).1

/-- C6 counterexample: building the remote inventory with one malformed
metadata blob among well-formed siblings returns failure for the whole fetch,
not a partial result dropping only the offending record: the same siblings
parse fine on their own, contradicting the claim that a single malformed blob
is dropped without aborting the batch. -/
theorem C6_counterexample :
    get_existing_documents
      (fun s => if s = "ok" then some [("hal_id", "h1")] else none)
      [⟨"d1", "t1", "success", "ok"⟩, ⟨"d2", "t2", "success", "bad"⟩,
        ⟨"d3", "t3", "success", "ok"⟩] = none ∧
    get_existing_documents
      (fun s => if s = "ok" then some [("hal_id", "h1")] else none)
      [⟨"d1", "t1", "success", "ok"⟩, ⟨"d3", "t3", "success", "ok"⟩] =
      some [flattenDoc ⟨"d1", "t1", "success", "ok"⟩ [("hal_id", "h1")],
        flattenDoc ⟨"d3", "t3", "success", "ok"⟩ [("hal_id", "h1")]] := by
  decide

/-- C6 as amended: a failing create or delete call is caught, excluded from
the success tally, and never aborts the batch.  Within the upload budget the
outcome counters are an exact partition of the candidates into skipped,
successfully created, and failed records; and the execute-mode delete loop
attempts every mismatched match regardless of earlier failures, counting only
the successful deletes.  A malformed remote metadata blob, by contrast,
aborts the whole inventory fetch. -/
theorem C6_per_record_failures (files : List PdfFile)
    (ex : List (String × String)) (mbf : List (String × Publication))
    (cr : String → Option String) (N : Int) (hN : 0 < N)
    (hlen : ((files.length : Int) ≤ N)) :
    ((upload_pdfs files ex mbf cr N).success =
        (files.filter (fun fl => !(isSkippedFile ex mbf fl) &&
          createSucceeds cr fl)).length ∧
      (upload_pdfs files ex mbf cr N).skipped =
        (files.filter (fun fl => isSkippedFile ex mbf fl)).length ∧
      (upload_pdfs files ex mbf cr N).failed.length =
        (files.filter (fun fl => !(isSkippedFile ex mbf fl) &&
          !(createSucceeds cr fl))).length) ∧
    (∀ (ms : List DocMatch) (ok : String → Bool),
      (process_matches true ok ms).calls =
        (ms.filter (fun m => !((needs_metadata_update m.documentRow
          m.catalogEntry).isEmpty))).map (fun m => RemoteCall.delete m.docId) ∧
      (process_matches true ok ms).deleteCount =
        (ms.filter (fun m => !((needs_metadata_update m.documentRow
          m.catalogEntry).isEmpty) && ok m.docId)).length ∧
      (process_matches true ok ms).skipCount =
        (ms.filter (fun m => (needs_metadata_update m.documentRow
          m.catalogEntry).isEmpty)).length) := by
  constructor
  · have hne : N ≠ 0 := by omega
    have h0 : upload_pdfs files ex mbf cr N =
        uploadLoop ex mbf cr N files 0 0 [] [] := by
      unfold upload_pdfs
      rw [if_neg hne]
    rw [h0]
    have := uploadLoop_char ex mbf cr N files 0 0 [] [] (by push_cast; omega)
    simpa using this
  · intro ms ok
    exact process_matches_exec ok ms

/-- C6 witness: two candidates where the first create raises: the batch is
not aborted, the second upload succeeds, and the failure is excluded from the
success tally. -/
theorem C6_witness :
    (upload_pdfs [⟨"a"⟩, ⟨"b"⟩] [] []
      (fun p => if p = "a.pdf" then some "boom" else none) 5).success =
      (([⟨"a"⟩, ⟨"b"⟩] : List PdfFile).filter (fun fl =>
        !(isSkippedFile [] [] fl) &&
        createSucceeds (fun p => if p = "a.pdf" then some "boom" else none)
          fl)).length :=
  (C6_per_record_failures [⟨"a"⟩, ⟨"b"⟩] [] []
    (fun p => if p = "a.pdf" then some "boom" else none) 5 (by decide)
    (by decide)).1.1

theorem findFile_spec (dir : List LocalFile) (nm : String) (f : LocalFile)
    (h : findFile dir nm = some f) : f ∈ dir ∧ f.name = nm := by
  induction dir with
  | nil => cases h
  | cons g rest ih =>
    by_cases hg : g.name = nm
    · simp only [findFile, hg, if_pos] at h
      cases h
      exact ⟨List.mem_cons_self _ _, hg⟩
    · simp only [findFile, hg, if_neg, not_false_eq_true] at h
      obtain ⟨h1, h2⟩ := ih h
      exact ⟨List.mem_cons_of_mem _ h1, h2⟩

theorem findFile_retag (g : LocalFile → String) (dir : List LocalFile)
    (nm : String) :
    findFile (dir.map (retag g)) nm = (findFile dir nm).map (retag g) := by
  induction dir with
  | nil => rfl
  | cons fl rest ih =>
    by_cases hg : fl.name = nm
    · simp [findFile, retag, hg]
    · simp only [List.map_cons, findFile, retag] at *
      rw [if_neg hg, if_neg hg, ih]

/-- C7: a catalog entry with external id X can only be classified available
with a file of the local directory named X.pdf or the underscore spelling of
that name; and the classification is invariant under arbitrarily rewriting
every file content, so a file under a different external id is never matched
even with identical content. -/
theorem C7_local_match (dir : List LocalFile) (halId : String)
    (hasPdf : Bool) :
    (∀ f, classify_catalog_entry dir halId hasPdf = LocalStatus.available f →
      f ∈ dir ∧ (f.name = halId ++ ".pdf" ∨
        f.name = underscoreId halId ++ ".pdf")) ∧
    (∀ g, classify_catalog_entry (dir.map (retag g)) halId hasPdf =
      retagStatus g (classify_catalog_entry dir halId hasPdf)) := by
  constructor
  · intro f hf
    cases hasPdf with
    | false => simp [classify_catalog_entry] at hf
    | true =>
      simp only [classify_catalog_entry, Bool.not_true, Bool.false_eq_true,
        if_false] at hf
      cases h1 : findFile dir (halId ++ ".pdf") with
      | some c =>
        rw [h1] at hf
        by_cases hsz : c.size > MAX_FILE_SIZE
        · simp [hsz] at hf
        · simp only [hsz, if_false] at hf
          cases hf
          obtain ⟨hm, hn⟩ := findFile_spec dir _ f h1
          exact ⟨hm, Or.inl hn⟩
      | none =>
        rw [h1] at hf
        cases h2 : findFile dir (underscoreId halId ++ ".pdf") with
        | some c =>
          rw [h2] at hf
          by_cases hsz : c.size > MAX_FILE_SIZE
          · simp [hsz] at hf
          · simp only [hsz, if_false] at hf
            cases hf
            obtain ⟨hm, hn⟩ := findFile_spec dir _ f h2
            exact ⟨hm, Or.inr hn⟩
        | none =>
          rw [h2] at hf
          by_cases hothers : dir.filter (fun fl =>
              strStartsWith (halId ++ ".") fl.name ||
              strStartsWith (underscoreId halId ++ ".") fl.name) = [] <;>
            simp [hothers] at hf
  · intro g
    cases hasPdf with
    | false => simp [classify_catalog_entry, retagStatus]
    | true =>
      have hfilter : (dir.map (retag g)).filter (fun fl =>
          strStartsWith (halId ++ ".") fl.name ||
          strStartsWith (underscoreId halId ++ ".") fl.name) =
          (dir.filter (fun fl =>
            strStartsWith (halId ++ ".") fl.name ||
            strStartsWith (underscoreId halId ++ ".") fl.name)).map (retag g) :=
        filter_map_general (retag g) _ _ (fun a => rfl) dir
      simp only [classify_catalog_entry, Bool.not_true, Bool.false_eq_true,
        if_false, findFile_retag, hfilter]
      cases h1 : findFile dir (halId ++ ".pdf") with
      | some c =>
        simp only [Option.map_some]
        by_cases hsz : c.size > MAX_FILE_SIZE
        · simp [retag, hsz, retagStatus]
        · simp [retag, hsz, retagStatus]
      | none =>
        simp only [Option.map_none]
        cases h2 : findFile dir (underscoreId halId ++ ".pdf") with
        | some c =>
          simp only [Option.map_some]
          by_cases hsz : c.size > MAX_FILE_SIZE
          · simp [retag, hsz, retagStatus]
          · simp [retag, hsz, retagStatus]
        | none =>
          simp only [Option.map_none]
          by_cases hothers : dir.filter (fun fl =>
              strStartsWith (halId ++ ".") fl.name ||
              strStartsWith (underscoreId halId ++ ".") fl.name) = []
          · simp [hothers, retagStatus]
          · have hm : ¬((dir.filter (fun fl =>
                strStartsWith (halId ++ ".") fl.name ||
                strStartsWith (underscoreId halId ++ ".") fl.name)).map
                (retag g) = []) := by simpa using hothers
            simp [hothers, hm, retagStatus]

/-- C7 witness: the entry hal-001234 is matched to the file hal-001234.pdf,
whose name is one of the two admissible spellings. -/
theorem C7_witness :
    (⟨"hal-001234.pdf", 5, "c"⟩ : LocalFile) ∈
        [(⟨"hal-001234.pdf", 5, "c"⟩ : LocalFile)] ∧
      ((⟨"hal-001234.pdf", 5, "c"⟩ : LocalFile).name = "hal-001234" ++ ".pdf" ∨
        (⟨"hal-001234.pdf", 5, "c"⟩ : LocalFile).name =
          underscoreId "hal-001234" ++ ".pdf") :=
  (C7_local_match [⟨"hal-001234.pdf", 5, "c"⟩] "hal-001234" true).1
    ⟨"hal-001234.pdf", 5, "c"⟩ (by decide)

theorem nmu_fold_mem (row : List (String × Option String))
    (cat : List (String × String)) (mapping : List (String × String)) :
    ∀ (acc : List (String × Option String)) (pr : String × Option String),
      pr ∈ mapping.foldl (nmuStep row cat) acc ↔
        pr ∈ acc ∨ ∃ fm ∈ mapping,
          fieldNeedsUpdate (rowGet row fm.2) (assocGet cat fm.1)
            (fm.1 = "authors") = true ∧ pr = (fm.1, assocGet cat fm.1) := by
  induction mapping with
  | nil => simp
  | cons fm rest ih =>
    intro acc pr
    simp only [List.foldl_cons]
    rw [ih]
    have hstep : nmuStep row cat acc fm =
        if fieldNeedsUpdate (rowGet row fm.2) (assocGet cat fm.1)
            (fm.1 = "authors") = true
        then acc ++ [(fm.1, assocGet cat fm.1)] else acc := rfl
    rw [hstep]
    by_cases hup : fieldNeedsUpdate (rowGet row fm.2) (assocGet cat fm.1)
        (fm.1 = "authors") = true
    · rw [if_pos hup]
      constructor
      · rintro (hin | ⟨fm2, hfm2, hup2, hpr2⟩)
        · rcases List.mem_append.mp hin with hacc | hsing
          · exact Or.inl hacc
          · rw [List.mem_singleton] at hsing
            exact Or.inr ⟨fm, List.mem_cons_self _ _, hup, hsing⟩
        · exact Or.inr ⟨fm2, List.mem_cons_of_mem _ hfm2, hup2, hpr2⟩
      · rintro (hacc | ⟨fm2, hfm12, hup2, hpr2⟩)
        · exact Or.inl (List.mem_append.mpr (Or.inl hacc))
        · rcases List.mem_cons.mp hfm12 with rfl | hfm2
          · exact Or.inl (List.mem_append.mpr
              (Or.inr (List.mem_singleton.mpr hpr2)))
          · exact Or.inr ⟨fm2, hfm2, hup2, hpr2⟩
    · rw [if_neg hup]
      constructor
      · rintro (hacc | ⟨fm2, hfm2, hup2, hpr2⟩)
        · exact Or.inl hacc
        · exact Or.inr ⟨fm2, List.mem_cons_of_mem _ hfm2, hup2, hpr2⟩
      · rintro (hacc | ⟨fm2, hfm12, hup2, hpr2⟩)
        · exact Or.inl hacc
        · rcases List.mem_cons.mp hfm12 with rfl | hfm2
          · exact absurd hup2 hup
          · exact Or.inr ⟨fm2, hfm2, hup2, hpr2⟩

/-- C8: needs_metadata_update returns exactly the mapped fields whose catalog
value differs from the stored value, where a stored value that is missing,
NaN, empty or whitespace-only counts as absent; for the authors field,
equality of the Python str of the stored cell with the stringified full
author list suffices for alignment, and an authors mismatch requires both
comparisons to disagree; an empty result makes process_matches skip the
document without any delete call. -/
theorem C8_metadata_diff (row : List (String × Option String))
    (pub : Publication) :
    (∀ f mc, (f, mc) ∈ metaFieldMapping → f ≠ "authors" →
      ((∃ v, (f, v) ∈ needs_metadata_update row pub) ↔
        normRemote (rowGet row mc) ≠
          assocGet (format_metadata_for_upload pub) f)) ∧
    (∀ s, assocGet (format_metadata_for_upload pub) "authors" = some s →
      pyStrOfOpt (rowGet row "meta_authors") = s →
      ∀ v, ("authors", v) ∉ needs_metadata_update row pub) ∧
    (∀ v, ("authors", v) ∈ needs_metadata_update row pub →
      authorsSame (rowGet row "meta_authors")
        (assocGet (format_metadata_for_upload pub) "authors") = false ∧
      normRemote (rowGet row "meta_authors") ≠
        assocGet (format_metadata_for_upload pub) "authors") ∧
    (needs_metadata_update row pub = [] →
      ∀ (ok : String → Bool) (docId : String),
        process_matches true ok [⟨docId, pub, row⟩] = ⟨0, 1, []⟩) := by
  have hmem : ∀ pr : String × Option String,
      pr ∈ needs_metadata_update row pub ↔
        ∃ fm ∈ metaFieldMapping,
          fieldNeedsUpdate (rowGet row fm.2)
            (assocGet (format_metadata_for_upload pub) fm.1)
            (fm.1 = "authors") = true ∧
          pr = (fm.1, assocGet (format_metadata_for_upload pub) fm.1) := by
    intro pr
    have h := nmu_fold_mem row (format_metadata_for_upload pub)
      metaFieldMapping [] pr
    simpa using h
  have huniq : ∀ fm ∈ metaFieldMapping, ∀ fm2 ∈ metaFieldMapping,
      fm.1 = fm2.1 → fm = fm2 := by decide
  refine ⟨?_, ?_, ?_, ?_⟩
  · intro f mc hfmc hne
    constructor
    · rintro ⟨v, hv⟩
      rcases (hmem (f, v)).mp hv with ⟨fm2, hfm2, hup2, hpr2⟩
      have hfeq : fm2.1 = f := (Prod.ext_iff.mp hpr2).1.symm
      have hf2 : fm2 = (f, mc) := huniq fm2 hfm2 (f, mc) hfmc hfeq
      rw [hf2] at hup2
      simpa [fieldNeedsUpdate, hne] using hup2
    · intro hne2
      refine ⟨assocGet (format_metadata_for_upload pub) f,
        (hmem _).mpr ⟨(f, mc), hfmc, ?_, rfl⟩⟩
      simpa [fieldNeedsUpdate, hne] using hne2
  · intro s hcat hstr v hv
    rcases (hmem ("authors", v)).mp hv with ⟨fm2, hfm2, hup2, hpr2⟩
    have hfeq : fm2.1 = "authors" := (Prod.ext_iff.mp hpr2).1.symm
    have hf2 : fm2 = ("authors", "meta_authors") :=
      huniq fm2 hfm2 ("authors", "meta_authors") (by decide) hfeq
    rw [hf2] at hup2
    simp [fieldNeedsUpdate, authorsSame, hcat, hstr] at hup2
  · intro v hv
    rcases (hmem ("authors", v)).mp hv with ⟨fm2, hfm2, hup2, hpr2⟩
    have hfeq : fm2.1 = "authors" := (Prod.ext_iff.mp hpr2).1.symm
    have hf2 : fm2 = ("authors", "meta_authors") :=
      huniq fm2 hfm2 ("authors", "meta_authors") (by decide) hfeq
    rw [hf2] at hup2
    by_cases hs : authorsSame (rowGet row "meta_authors")
        (assocGet (format_metadata_for_upload pub) "authors") = true
    · simp [fieldNeedsUpdate, hs] at hup2
    · have hsf : authorsSame (rowGet row "meta_authors")
          (assocGet (format_metadata_for_upload pub) "authors") = false := by
        cases hb : authorsSame (rowGet row "meta_authors")
            (assocGet (format_metadata_for_upload pub) "authors")
        · rfl
        · exact absurd hb hs
      refine ⟨hsf, ?_⟩
      simpa [fieldNeedsUpdate, hsf] using hup2
  · intro hempty ok docId
    simp [process_matches, hempty]

/-- C8 witness: on the concrete matched pair rowC8 and pubC8, whose stored
title differs from the catalog title, the title field is reported as needing
an update. -/
theorem C8_witness :
    ∃ v, ("title", v) ∈ needs_metadata_update rowC8 pubC8 :=
  ((C8_metadata_diff rowC8 pubC8).1 "title" "meta_title" (by decide)
    (by decide)).mpr (by decide)

theorem paginateAux_spec {α : Type} (fetch : Nat → FetchResult α) (bs : Nat) :
    ∀ (fuel current : Nat) (acc : List α) (offs : List Nat),
      ∃ n, n ≤ fuel ∧
        (paginateAux fetch bs fuel current acc offs).2 =
          offs ++ (List.range n).map (fun i => (current + i) * bs) ∧
        ∀ i, i + 1 < n →
          ∃ docs, fetch (current + i) = FetchResult.ok docs ∧ docs ≠ [] ∧
            bs ≤ docs.length := by
  intro fuel
  induction fuel with
  | zero =>
    intro current acc offs
    refine ⟨0, le_refl 0, by simp [paginateAux], ?_⟩
    intro i hi
    omega
  | succ fuel ih =>
    intro current acc offs
    simp only [paginateAux]
    cases hf : fetch current with
    | err =>
      refine ⟨1, by omega, by rw [show List.range 1 = [0] from rfl]; simp, ?_⟩
      intro i hi
      omega
    | ok docs =>
      dsimp only
      by_cases hemp : docs.isEmpty = true
      · rw [if_pos hemp]
        refine ⟨1, by omega, by rw [show List.range 1 = [0] from rfl]; simp, ?_⟩
        intro i hi
        omega
      · rw [if_neg hemp]
        by_cases hshort : docs.length < bs
        · rw [if_pos hshort]
          refine ⟨1, by omega, by rw [show List.range 1 = [0] from rfl]; simp, ?_⟩
          intro i hi
          omega
        · rw [if_neg hshort]
          obtain ⟨n, hn, hoffs, hfull⟩ :=
            ih (current + 1) (acc ++ docs) (offs ++ [current * bs])
          refine ⟨n + 1, by omega, ?_, ?_⟩
          · rw [hoffs, List.append_assoc]
            congr 1
            rw [List.range_succ_eq_map, List.map_cons, List.map_map]
            have harg : ((fun i => (current + i) * bs) ∘ (fun i => i + 1)) =
                (fun i => (current + 1 + i) * bs) := by
              funext i
              simp only [Function.comp]
              congr 1
              omega
            rw [harg]
            simp
          · intro i hi
            cases i with
            | zero =>
              refine ⟨docs, by simpa using hf, ?_, by omega⟩
              intro hd
              rw [hd] at hemp
              exact hemp rfl
            | succ j =>
              have hj := hfull j (by omega)
              have heq : current + 1 + j = current + (j + 1) := by omega
              rw [heq] at hj
              exact hj

/-- C9: the pagination loop requests at most the configured maximum number of
batches, the requested offsets advance from zero by exactly the batch size,
and every request other than the last one was preceded by a full non-empty
page: the loop stops at the first error, empty page, or short page without
fetching any further page. -/
theorem C9_pagination {α : Type} (fetch : Nat → FetchResult α)
    (bs maxB : Nat) :
    (get_paginated_publications fetch bs maxB).2.length ≤ maxB ∧
    (get_paginated_publications fetch bs maxB).2 =
      (List.range (get_paginated_publications fetch bs maxB).2.length).map
        (fun j => j * bs) ∧
    (∀ j, j + 1 < (get_paginated_publications fetch bs maxB).2.length →
      ∃ docs, fetch j = FetchResult.ok docs ∧ docs ≠ [] ∧
        bs ≤ docs.length) := by
  obtain ⟨n, hn, hoffs, hfull⟩ := paginateAux_spec fetch bs maxB 0 [] []
  have hoffs2 : (get_paginated_publications fetch bs maxB).2 =
      (List.range n).map (fun j => j * bs) := by
    unfold get_paginated_publications
    rw [hoffs]
    simp
  have hlen : (get_paginated_publications fetch bs maxB).2.length = n := by
    rw [hoffs2]
    simp
  refine ⟨by omega, by rw [hlen, hoffs2], ?_⟩
  intro j hj
  rw [hlen] at hj
  have := hfull j hj
  simpa using this

/-- C9 witness: a source with a full first page and a short second page is
fetched at offsets 0 and 2 only, and the theorem certifies the first request
returned a full non-empty page. -/
theorem C9_witness :
    ∃ docs, (fun i => if i = 0 then FetchResult.ok ["a", "b"]
        else FetchResult.ok ["c"]) 0 = FetchResult.ok docs ∧
      docs ≠ ([] : List String) ∧ 2 ≤ docs.length :=
  (C9_pagination (fun i => if i = 0 then FetchResult.ok ["a", "b"]
    else FetchResult.ok ["c"]) 2 10).2.2 0 (by decide)
